import Mathlib

/-!
# Verification of the voxel chunk generator (src/main.rs)

This file shallowly embeds the mesh-generation core of the repository:
the constants (lines 11-14), the data model (lines 24-45), the chunk
generation, neighbour classification and quad emission phases of
`create_chunk_mesh` (lines 283-510), and the canonical cube mesh
`create_cube_mesh` (lines 153-276).

Modelling conventions:
* Rust `i32` arithmetic is embedded as `ℤ` with an explicit two's-complement
  wrap `wrap32` applied after every operation, matching release-mode wrapping
  semantics.
* `f64`/`f32` literals and values are modelled by the rationals they denote;
  the Perlin sampler `perlin.get` (an opaque, deterministic pure function of
  its three `f64` arguments, seeded once with the constant `SEED`) is taken
  as an abstract parameter `noise : ℚ → ℚ → ℚ → ℚ`.  All verified statements
  depend on the float values only through equality, ordering, and exact
  small-magnitude arithmetic (`|coordinate| < 2 ^ 24`), where this model
  agrees with IEEE semantics.
* The growable `Vec` buffers become `List`s; an indexing operation
  `chunk_data[i]` becomes `l[i]?`, whose `none` branch stands for the
  out-of-bounds panic of the source (shown unreachable, claim C10).
* The three nested `for` loops over `0..CHUNK_SIZE` are embedded as folds and
  maps over `localTriples S`, the list of loop-variable triples `(x, y, z)`
  in exactly the source's iteration (push) order: `x` outermost, `z`
  innermost.
* Functions are parametric in the chunk side length `S`; the source's
  behaviour is the instantiation at `S = CHUNK_SIZE = 16` (the `S = 0`
  instantiation is used for the degenerate-configuration claim C5).
-/

namespace VoxelGen

/-- Constant `SEED: u32 = 2137` (src/main.rs line 11). -/
def SEED : ℕ := 2137

/-- Constant `CHUNK_SIZE: usize = 16` (src/main.rs line 12). -/
def CHUNK_SIZE : ℕ := 16

/-- Constant `WORLD_SCALE: f64 = 0.1` (src/main.rs line 13), as the rational it denotes. -/
def WORLD_SCALE : ℚ := 1 / 10

/-- Constant `NOISE_THRESHOLD: f64 = 0.3` (src/main.rs line 14). -/
def NOISE_THRESHOLD : ℚ := 3 / 10

/-- The enum `BlockType` with variants `Air` and `Dirt` (src/main.rs lines 24-28). -/
inductive BlockType where
  | Air : BlockType
  | Dirt : BlockType
deriving DecidableEq, Repr

/-- The enum `BlockFace` with the six face variants (src/main.rs lines 30-38). -/
inductive BlockFace where
  | Top : BlockFace
  | Bottom : BlockFace
  | Left : BlockFace
  | Right : BlockFace
  | Front : BlockFace
  | Back : BlockFace
deriving DecidableEq, Repr

/-- Bevy `IVec3`: a 3-vector of `i32` values (value range is tracked separately). -/
structure IVec3 where
  x : ℤ
  y : ℤ
  z : ℤ
deriving DecidableEq, Repr

/-- The struct `Block` (src/main.rs lines 40-45). -/
structure Block where
  block_type : BlockType
  block_intersections : List BlockFace
  block_position : IVec3
deriving DecidableEq, Repr

/-- Two's-complement wrap to the `i32` value range, modelling release-mode
Rust integer overflow semantics. -/
def wrap32 (n : ℤ) : ℤ := (n + 2 ^ 31) % 2 ^ 32 - 2 ^ 31

/-- A value lies in the `i32` range. -/
def i32range (n : ℤ) : Prop := -(2 ^ 31) ≤ n ∧ n < 2 ^ 31

instance (n : ℤ) : Decidable (i32range n) := by unfold i32range; infer_instance

/-- One component of the scaled (world) position of a voxel,
`x as i32 + (chunk_position.x * CHUNK_SIZE as i32)` (src/main.rs lines 299-301):
`c` is the chunk coordinate component, `l` the local loop variable.
Every `i32` operation (the `usize as i32` casts, the multiplication and the
addition) wraps. -/
def scaledCoord (S : ℕ) (c : ℤ) (l : ℕ) : ℤ :=
  wrap32 (wrap32 l + wrap32 (c * wrap32 S))

/-- The noise value sampled for local cell `(lx, ly, lz)` of chunk `cp`
(src/main.rs lines 306-310): the scaled position converted to `f64` and
multiplied by `WORLD_SCALE`, fed to the Perlin sampler (abstract `noise`). -/
def sampleValue (noise : ℚ → ℚ → ℚ → ℚ) (S : ℕ) (cp : IVec3) (lx ly lz : ℕ) : ℚ :=
  noise ((scaledCoord S cp.x lx : ℚ) * WORLD_SCALE)
        ((scaledCoord S cp.y ly : ℚ) * WORLD_SCALE)
        ((scaledCoord S cp.z lz : ℚ) * WORLD_SCALE)

/-- The block pushed for local cell `(lx, ly, lz)` (src/main.rs lines 312-325):
`Dirt` when the sampled noise value is strictly above `NOISE_THRESHOLD`,
`Air` otherwise; `block_intersections` starts empty in both branches. -/
def mkBlock (noise : ℚ → ℚ → ℚ → ℚ) (S : ℕ) (cp : IVec3) (lx ly lz : ℕ) : Block :=
  if sampleValue noise S cp lx ly lz > NOISE_THRESHOLD then
    { block_type := BlockType.Dirt
      block_intersections := []
      block_position := ⟨scaledCoord S cp.x lx, scaledCoord S cp.y ly, scaledCoord S cp.z lz⟩ }
  else
    { block_type := BlockType.Air
      block_intersections := []
      block_position := ⟨scaledCoord S cp.x lx, scaledCoord S cp.y ly, scaledCoord S cp.z lz⟩ }

/-- The loop-variable triples of the three nested `for` loops
`for x in 0..S { for y in 0..S { for z in 0..S { .. } } }`, in iteration
order (`x` outermost, `z` innermost). -/
def localTriples (S : ℕ) : List (ℕ × ℕ × ℕ) :=
  (List.range S).flatMap fun x =>
    (List.range S).flatMap fun y =>
      (List.range S).map fun z => (x, y, z)

/-- The generation phase (src/main.rs lines 295-328): the `chunk_data`
vector after the first triple loop, one block pushed per iteration. -/
def genChunkData (noise : ℚ → ℚ → ℚ → ℚ) (S : ℕ) (cp : IVec3) : List Block :=
  (localTriples S).map fun p => mkBlock noise S cp p.1 p.2.1 p.2.2

/-- The linear index `x + (y * CHUNK_SIZE) + (z * CHUNK_SIZE * CHUNK_SIZE)`
(src/main.rs line 334). -/
def chunkIndex (S x y z : ℕ) : ℕ := x + y * S + z * S * S

/-- Whether the entry at list index `i` exists and is not `Air` — the test
`block.block_type != BlockType::Air` applied to `chunk_data[i]`. -/
def neighborSolid (d : List Block) (i : ℕ) : Bool :=
  match d[i]? with
  | none => false
  | some b => decide (b.block_type ≠ BlockType.Air)

/-- Append `face` to a block's `block_intersections` (the `Vec::push`). -/
def pushIntr (face : BlockFace) (b : Block) : Block :=
  { b with block_intersections := b.block_intersections ++ [face] }

/-- The write `chunk_data[index].block_intersections.push(face)`: appends `face` to the
intersection list of entry `i`.  The (unreachable, see C10) out-of-bounds
branch leaves the list unchanged. -/
def pushFace (d : List Block) (i : ℕ) (face : BlockFace) : List Block :=
  match d[i]? with
  | none => d
  | some b => d.set i (pushIntr face b)

/-- One guarded neighbour check of the classification loop: read the block at
`nIdx` and test `block_type != BlockType::Air` (that read-and-test is
`neighborSolid`, whose `none` branch stands for the source's out-of-bounds
panic, shown unreachable in C10); if it holds, push `face` onto the
intersections of the block at `index` (src/main.rs lines 366-426, one of the
six checks). -/
def checkNeighbor (d : List Block) (index nIdx : ℕ) (face : BlockFace) : List Block :=
  if neighborSolid d nIdx then pushFace d index face else d

/-- One bounds-guarded neighbour check: `if g { checkNeighbor .. } else `
leave `d` unchanged (the six `if y < CHUNK_SIZE - 1 { .. }` style guards of
src/main.rs lines 367, 377, 389, 399, 409, 419). -/
def stageIf (g : Prop) [Decidable g] (d : List Block) (index nIdx : ℕ)
    (face : BlockFace) : List Block :=
  if g then checkNeighbor d index nIdx face else d

/-- The six guarded neighbour checks of the classification loop body
(src/main.rs lines 366-426) in source order (Top, Bottom, Left, Right,
Front, Back), threading the partially updated `chunk_data` through. -/
def sixStages (S x y z : ℕ) (d : List Block) : List Block :=
  let index := chunkIndex S x y z
  let d1 := stageIf (y < S - 1) d index (index + S) BlockFace.Top
  let d2 := stageIf (0 < y) d1 index (index - S) BlockFace.Bottom
  let d3 := stageIf (0 < x) d2 index (index - 1) BlockFace.Left
  let d4 := stageIf (x < S - 1) d3 index (index + 1) BlockFace.Right
  let d5 := stageIf (z < S - 1) d4 index (index + S * S) BlockFace.Front
  let d6 := stageIf (0 < z) d5 index (index - S * S) BlockFace.Back
  d6

/-- One iteration of the classification loop body (src/main.rs lines 333-426)
at loop variables `(x, y, z)`: read the block at `index`, skip `Air` blocks
(`continue`), otherwise run the six guarded neighbour checks. -/
def classifyStep (S : ℕ) (d : List Block) (x y z : ℕ) : List Block :=
  match d[chunkIndex S x y z]? with
  | none => d
  | some b =>
    if b.block_type = BlockType.Air then d
    else sixStages S x y z d

/-- The classification phase (src/main.rs lines 330-429): fold the loop body
over the loop-variable triples in iteration order. -/
def classifyChunk (S : ℕ) (d : List Block) : List Block :=
  (localTriples S).foldl (fun d p => classifyStep S d p.1 p.2.1 p.2.2) d

/-- The six conditional face pushes a non-`Air` block at loop variables
`(x, y, z)` receives, computed against the chunk data `d`, in push order. -/
def stepFaces (S x y z : ℕ) (d : List Block) : List BlockFace :=
  (if y < S - 1 ∧ neighborSolid d (chunkIndex S x y z + S) then [BlockFace.Top] else []) ++
  (if 0 < y ∧ neighborSolid d (chunkIndex S x y z - S) then [BlockFace.Bottom] else []) ++
  (if 0 < x ∧ neighborSolid d (chunkIndex S x y z - 1) then [BlockFace.Left] else []) ++
  (if x < S - 1 ∧ neighborSolid d (chunkIndex S x y z + 1) then [BlockFace.Right] else []) ++
  (if z < S - 1 ∧ neighborSolid d (chunkIndex S x y z + S * S) then [BlockFace.Front] else []) ++
  (if 0 < z ∧ neighborSolid d (chunkIndex S x y z - S * S) then [BlockFace.Back] else [])

/-- An `f32` 3-vector, components modelled by the rationals they denote. -/
structure Vec3 where
  x : ℚ
  y : ℚ
  z : ℚ
deriving DecidableEq, Repr

/-- An `f32` 2-vector (UV coordinates). -/
structure Vec2 where
  u : ℚ
  v : ℚ
deriving DecidableEq, Repr

/-- The vertex-attribute and index buffers of a Bevy `Mesh` as filled by this
program: `ATTRIBUTE_POSITION`, `ATTRIBUTE_NORMAL`, `ATTRIBUTE_UV_0` and the
`U32` index buffer. -/
structure MeshData where
  positions : List Vec3
  normals : List Vec3
  uvs : List Vec2
  indices : List ℕ
deriving DecidableEq, Repr

/-- The `i32 → f32` cast `block.block_position.x as f32`, modelled as the
exact value; this agrees with IEEE binary32 whenever the magnitude is below
`2 ^ 24`, which covers every coordinate reached in the statements below. -/
def f32ofInt (n : ℤ) : ℚ := (n : ℚ)

/-- The four face vertices pushed for a block at position `p`
(src/main.rs lines 447-450): the X/Y extent of the voxel on its `z - 0.5`
plane. -/
def quadVerts (p : IVec3) : List Vec3 :=
  [ ⟨f32ofInt p.x - 1 / 2, f32ofInt p.y - 1 / 2, f32ofInt p.z - 1 / 2⟩
  , ⟨f32ofInt p.x + 1 / 2, f32ofInt p.y - 1 / 2, f32ofInt p.z - 1 / 2⟩
  , ⟨f32ofInt p.x + 1 / 2, f32ofInt p.y + 1 / 2, f32ofInt p.z - 1 / 2⟩
  , ⟨f32ofInt p.x - 1 / 2, f32ofInt p.y + 1 / 2, f32ofInt p.z - 1 / 2⟩ ]

/-- The six indices pushed for the quad whose first vertex has index `m`
(src/main.rs lines 452-459): two triangles over the four new vertices. -/
def quadIndicesAt (m : ℕ) : List ℕ :=
  [m, m + 1, m + 2, m, m + 2, m + 3]

/-- The four (fixed, `+Y`) normals pushed per quad (src/main.rs lines 463-466). -/
def quadNormals : List Vec3 :=
  [⟨0, 1, 0⟩, ⟨0, 1, 0⟩, ⟨0, 1, 0⟩, ⟨0, 1, 0⟩]

/-- The four UV corners pushed per quad (src/main.rs lines 469-472). -/
def quadUVs : List Vec2 :=
  [⟨0, 0⟩, ⟨1, 0⟩, ⟨1, 1⟩, ⟨0, 1⟩]

/-- The four output buffers of the emission loop. -/
structure MeshBufs where
  vertices : List Vec3
  indices : List ℕ
  normals : List Vec3
  uvs : List Vec2
deriving DecidableEq, Repr

/-- Whether the emission loop emits a quad for `b`: the only test the source
performs is `block.block_intersections.is_empty()` (src/main.rs line 440);
the block type is not consulted. -/
def emits (b : Block) : Bool := b.block_intersections.isEmpty

/-- One iteration of the emission loop (src/main.rs lines 439-474): if the
block's `block_intersections` list is empty (`emits`), push the 4 vertices,
then the 6 indices computed from `vertices.len() - 4`, then the 4 normals
and 4 UVs. -/
def emitBlock (acc : MeshBufs) (b : Block) : MeshBufs :=
  if emits b then
    let verts := acc.vertices ++ quadVerts b.block_position
    let i := verts.length - 4
    { vertices := verts
      indices := acc.indices ++ [i, i + 1, i + 2, i, i + 2, i + 3]
      normals := acc.normals ++ quadNormals
      uvs := acc.uvs ++ quadUVs }
  else
    acc

/-- The emission phase plus attribute insertion (src/main.rs lines 434-486):
fold the emission loop over the classified chunk data, starting from empty
buffers, and package the result. -/
def buildMeshData (d : List Block) : MeshData :=
  let bufs := d.foldl emitBlock ⟨[], [], [], []⟩
  ⟨bufs.vertices, bufs.normals, bufs.uvs, bufs.indices⟩

/-- The function `create_chunk_mesh` (src/main.rs lines 283-510), parametric in the chunk
side length `S`: generate, classify, emit. -/
def create_chunk_mesh_S (noise : ℚ → ℚ → ℚ → ℚ) (S : ℕ) (cp : IVec3) : MeshData :=
  buildMeshData (classifyChunk S (genChunkData noise S cp))

/-- The function `create_chunk_mesh` at the source's chunk side length `CHUNK_SIZE = 16`. -/
def create_chunk_mesh (noise : ℚ → ℚ → ℚ → ℚ) (cp : IVec3) : MeshData :=
  create_chunk_mesh_S noise CHUNK_SIZE cp

/-- The counter `total_intersections` (src/main.rs lines 500-503): the summed lengths of
all `block_intersections` lists. -/
def totalIntersections (d : List Block) : ℕ :=
  (d.map fun b => b.block_intersections.length).sum

/-- Division of `f64` values, with `none` standing for the non-finite result (NaN or
signed infinity) produced when the divisor is zero.  The source divides
unconditionally. -/
def fdiv (a b : ℚ) : Option ℚ :=
  if b = 0 then none else some (a / b)

/-- The logged average-intersections statistic
`total_intersections as f64 / chunk_data.len() as f64`
(src/main.rs lines 504-507), computed on the classified chunk data. -/
def avgIntersections (noise : ℚ → ℚ → ℚ → ℚ) (S : ℕ) (cp : IVec3) : Option ℚ :=
  fdiv (totalIntersections (classifyChunk S (genChunkData noise S cp)))
       ((classifyChunk S (genChunkData noise S cp)).length : ℚ)

/-- The function `create_cube_mesh` (src/main.rs lines 153-276): the hand-written unit
cube, 24 vertices / 24 normals / 24 UVs / 36 indices, transcribed verbatim
(face order: top `+y`, bottom `-y`, right `+x`, left `-x`, back `+z`,
forward `-z`). -/
def create_cube_mesh : MeshData :=
  { positions :=
      [ ⟨-1/2,  1/2, -1/2⟩, ⟨ 1/2,  1/2, -1/2⟩, ⟨ 1/2,  1/2,  1/2⟩, ⟨-1/2,  1/2,  1/2⟩
      , ⟨-1/2, -1/2, -1/2⟩, ⟨ 1/2, -1/2, -1/2⟩, ⟨ 1/2, -1/2,  1/2⟩, ⟨-1/2, -1/2,  1/2⟩
      , ⟨ 1/2, -1/2, -1/2⟩, ⟨ 1/2, -1/2,  1/2⟩, ⟨ 1/2,  1/2,  1/2⟩, ⟨ 1/2,  1/2, -1/2⟩
      , ⟨-1/2, -1/2, -1/2⟩, ⟨-1/2, -1/2,  1/2⟩, ⟨-1/2,  1/2,  1/2⟩, ⟨-1/2,  1/2, -1/2⟩
      , ⟨-1/2, -1/2,  1/2⟩, ⟨-1/2,  1/2,  1/2⟩, ⟨ 1/2,  1/2,  1/2⟩, ⟨ 1/2, -1/2,  1/2⟩
      , ⟨-1/2, -1/2, -1/2⟩, ⟨-1/2,  1/2, -1/2⟩, ⟨ 1/2,  1/2, -1/2⟩, ⟨ 1/2, -1/2, -1/2⟩ ]
    normals :=
      [ ⟨0, 1, 0⟩, ⟨0, 1, 0⟩, ⟨0, 1, 0⟩, ⟨0, 1, 0⟩
      , ⟨0, -1, 0⟩, ⟨0, -1, 0⟩, ⟨0, -1, 0⟩, ⟨0, -1, 0⟩
      , ⟨1, 0, 0⟩, ⟨1, 0, 0⟩, ⟨1, 0, 0⟩, ⟨1, 0, 0⟩
      , ⟨-1, 0, 0⟩, ⟨-1, 0, 0⟩, ⟨-1, 0, 0⟩, ⟨-1, 0, 0⟩
      , ⟨0, 0, 1⟩, ⟨0, 0, 1⟩, ⟨0, 0, 1⟩, ⟨0, 0, 1⟩
      , ⟨0, 0, -1⟩, ⟨0, 0, -1⟩, ⟨0, 0, -1⟩, ⟨0, 0, -1⟩ ]
    uvs :=
      [ ⟨0, 0⟩, ⟨1, 0⟩, ⟨1, 1⟩, ⟨0, 1⟩
      , ⟨0, 0⟩, ⟨1, 0⟩, ⟨1, 1⟩, ⟨0, 1⟩
      , ⟨0, 0⟩, ⟨1, 0⟩, ⟨1, 1⟩, ⟨0, 1⟩
      , ⟨0, 0⟩, ⟨1, 0⟩, ⟨1, 1⟩, ⟨0, 1⟩
      , ⟨0, 0⟩, ⟨1, 0⟩, ⟨1, 1⟩, ⟨0, 1⟩
      , ⟨0, 0⟩, ⟨1, 0⟩, ⟨1, 1⟩, ⟨0, 1⟩ ]
    indices :=
      [ 0, 3, 1, 1, 3, 2
      , 4, 5, 7, 5, 6, 7
      , 8, 11, 9, 9, 11, 10
      , 12, 13, 15, 13, 14, 15
      , 16, 19, 17, 17, 19, 18
      , 20, 21, 23, 21, 22, 23 ] }

/-- The mesh buffer invariants of spec §3 / §8: parallel attribute buffers,
quad granularity, 6 indices per 4 vertices, indices in range. -/
def meshInvariants (m : MeshData) : Prop :=
  m.positions.length = m.normals.length ∧
  m.positions.length = m.uvs.length ∧
  m.positions.length % 4 = 0 ∧
  m.indices.length = m.positions.length / 4 * 6 ∧
  ∀ i ∈ m.indices, i < m.positions.length

/-- Componentwise difference of two `Vec3`s. -/
def vsub (a b : Vec3) : Vec3 := ⟨a.x - b.x, a.y - b.y, a.z - b.z⟩

/-- Dot product. -/
def vdot (a b : Vec3) : ℚ := a.x * b.x + a.y * b.y + a.z * b.z

/-- Cross product (right-handed). -/
def vcross (a b : Vec3) : Vec3 :=
  ⟨a.y * b.z - a.z * b.y, a.z * b.x - a.x * b.z, a.x * b.y - a.y * b.x⟩

/-- The immutable part of an entry: its block type and position.  The
classification loop reads neighbours only through this. -/
def skelAt (d : List Block) (j : ℕ) : Option (BlockType × IVec3) :=
  d[j]?.map fun b => (b.block_type, b.block_position)

/-- The number of blocks of `d` that the emission loop emits a quad for. -/
def emittedCount (d : List Block) : ℕ := (d.filter emits).length

/-- The index buffer the emission loop produces for blocks `d` when the
vertex buffer already holds `m` vertices. -/
def indsFrom (m : ℕ) : List Block → List ℕ
  | [] => []
  | b :: rest =>
    if emits b then quadIndicesAt m ++ indsFrom (m + 4) rest
    else indsFrom m rest

/-- Whether the cell generated at local `(lx, ly, lz)` is classified solid:
the sampled noise value is strictly above the threshold. -/
def solidAt (noise : ℚ → ℚ → ℚ → ℚ) (S : ℕ) (cp : IVec3) (lx ly lz : ℕ) : Bool :=
  decide (sampleValue noise S cp lx ly lz > NOISE_THRESHOLD)

/-- The constant-zero sampler: every sample is `0 ≤ NOISE_THRESHOLD`, so
every generated cell is `Air`. -/
def zeroNoise : ℚ → ℚ → ℚ → ℚ := fun _ _ _ => 0

/-- A sampler whose value is above the threshold exactly at the two noise
arguments corresponding to world positions `(0,0,0)` and `(1,0,0)`
(arguments are world coordinates times `WORLD_SCALE = 1/10`). -/
def twoSolidNoise : ℚ → ℚ → ℚ → ℚ := fun a b c =>
  if (a = 0 ∨ a = 1 / 10) ∧ b = 0 ∧ c = 0 then 1 else 0

/-- A concrete block used to instantiate statements about arbitrary chunk
data. -/
def airBlock : Block := ⟨BlockType.Air, [], ⟨0, 0, 0⟩⟩

/-- The outward unit normal of face `f` of the unit cube, in the source's
face order: top `+y`, bottom `-y`, right `+x`, left `-x`, back `+z`,
forward `-z`. -/
def cubeOutwardNormal (f : ℕ) : Vec3 :=
  [Vec3.mk 0 1 0, Vec3.mk 0 (-1) 0, Vec3.mk 1 0 0, Vec3.mk (-1) 0 0,
   Vec3.mk 0 0 1, Vec3.mk 0 0 (-1)].getD f ⟨0, 0, 0⟩

/-- Triangle `t` of mesh `m` (its indices sit at `3t, 3t+1, 3t+2`) is wound
counter-clockwise when viewed from the side its face normal `n` points to:
the cross product of its edge vectors points along `n`. -/
def ccwCheck (m : MeshData) (t : ℕ) (n : Vec3) : Bool :=
  let p0 := m.positions.getD (m.indices.getD (3 * t) 0) ⟨0, 0, 0⟩
  let p1 := m.positions.getD (m.indices.getD (3 * t + 1) 0) ⟨0, 0, 0⟩
  let p2 := m.positions.getD (m.indices.getD (3 * t + 2) 0) ⟨0, 0, 0⟩
  decide (0 < vdot (vcross (vsub p1 p0) (vsub p2 p0)) n)

/-! ## List indexing lemmas for the loop-triple list -/

theorem sum_map_const_nat {α : Type _} (l : List α) (m : ℕ) :
    (List.map (fun _ => m) l).sum = l.length * m := by
  induction l with
  | nil => simp
  | cons a l ih => simp [ih, Nat.succ_mul, Nat.add_comm]

theorem length_flatMap_const {α : Type _} (f : ℕ → List α) (m n : ℕ)
    (hf : ∀ x, (f x).length = m) :
    ((List.range n).flatMap f).length = n * m := by
  rw [List.length_flatMap]
  have h : List.map (List.length ∘ f) (List.range n) = List.map (fun _ => m) (List.range n) :=
    List.map_congr_left fun a _ => hf a
  rw [h, sum_map_const_nat, List.length_range]

theorem getElem?_flatMap_const {α : Type _} (f : ℕ → List α) (m : ℕ)
    (hf : ∀ x, (f x).length = m) :
    ∀ n i : ℕ, i < n * m → ((List.range n).flatMap f)[i]? = (f (i / m))[i % m]? := by
  intro n
  induction n with
  | zero => intro i h; simp at h
  | succ n ih =>
    intro i h
    rw [List.range_succ, List.flatMap_append]
    have hlen := length_flatMap_const f m n hf
    by_cases hi : i < n * m
    · rw [List.getElem?_append_left (by rw [hlen]; exact hi)]
      exact ih i hi
    · push_neg at hi
      rw [List.getElem?_append_right (by rw [hlen]; exact hi), hlen]
      have hdiv : i / m = n := Nat.div_eq_of_lt_le hi h
      have hsub : i - n * m < m := by
        rw [Nat.succ_mul] at h
        generalize n * m = t at *
        omega
      have hmod : i % m = i - n * m := by
        conv_lhs => rw [← Nat.sub_add_cancel hi]
        rw [Nat.add_mul_mod_self_right]
        exact Nat.mod_eq_of_lt hsub
      rw [hdiv, hmod]
      simp

theorem inner_double_lt {S a b : ℕ} (ha : a < S) (hb : b < S) : a * S + b < S * S := by
  calc a * S + b < a * S + S := Nat.add_lt_add_left hb _
  _ = (a + 1) * S := by ring
  _ ≤ S * S := Nat.mul_le_mul_right S (Nat.succ_le_of_lt ha)

theorem triple_lt {S x y z : ℕ} (hx : x < S) (hy : y < S) (hz : z < S) :
    x * S * S + y * S + z < S * (S * S) := by
  calc x * S * S + y * S + z = x * (S * S) + (y * S + z) := by ring
  _ < x * (S * S) + S * S := Nat.add_lt_add_left (inner_double_lt hy hz) _
  _ = (x + 1) * (S * S) := by ring
  _ ≤ S * (S * S) := Nat.mul_le_mul_right (S * S) (Nat.succ_le_of_lt hx)

theorem div_mul_add {S a b : ℕ} (hb : b < S * S) :
    (a * S * S + b) / (S * S) = a ∧ (a * S * S + b) % (S * S) = b := by
  have he : a * S * S + b = b + a * (S * S) := by ring
  constructor
  · refine Nat.div_eq_of_lt_le (by rw [he]; omega) ?_
    have : a * S * S + b < a * S * S + S * S := Nat.add_lt_add_left hb _
    calc a * S * S + b < a * S * S + S * S := this
    _ = (a + 1) * (S * S) := by ring
  · rw [he, Nat.add_mul_mod_self_right]
    exact Nat.mod_eq_of_lt hb

theorem div_mul_add' {S a b : ℕ} (hb : b < S) :
    (a * S + b) / S = a ∧ (a * S + b) % S = b := by
  have he : a * S + b = b + a * S := by ring
  constructor
  · refine Nat.div_eq_of_lt_le (by rw [he]; omega) ?_
    calc a * S + b < a * S + S := Nat.add_lt_add_left hb _
    _ = (a + 1) * S := by ring
  · rw [he, Nat.add_mul_mod_self_right]
    exact Nat.mod_eq_of_lt hb

theorem length_localTriples (S : ℕ) : (localTriples S).length = S * (S * S) := by
  unfold localTriples
  refine length_flatMap_const _ (S * S) S fun x => ?_
  refine length_flatMap_const _ S S fun y => ?_
  simp

theorem localTriples_getElem {S x y z : ℕ} (hx : x < S) (hy : y < S) (hz : z < S) :
    (localTriples S)[x * S * S + y * S + z]? = some (x, y, z) := by
  unfold localTriples
  have hin : ∀ a : ℕ, ((List.range S).flatMap
      (fun y => (List.range S).map fun z => (a, y, z))).length = S * S := by
    intro a
    refine length_flatMap_const _ S S fun y => ?_
    simp
  have hb : y * S + z < S * S := inner_double_lt hy hz
  have hidx : x * S * S + y * S + z = x * S * S + (y * S + z) := by ring
  rw [hidx, getElem?_flatMap_const _ (S * S) hin S _ (hidx ▸ triple_lt hx hy hz),
      (div_mul_add hb).1, (div_mul_add hb).2,
      getElem?_flatMap_const _ S (fun y => by simp) S _ hb,
      (div_mul_add' hz).1, (div_mul_add' hz).2,
      List.getElem?_map, List.getElem?_range hz]
  rfl

theorem localTriples_mem {S : ℕ} {p : ℕ × ℕ × ℕ} (hp : p ∈ localTriples S) :
    p.1 < S ∧ p.2.1 < S ∧ p.2.2 < S := by
  unfold localTriples at hp
  simp only [List.mem_flatMap, List.mem_map, List.mem_range] at hp
  obtain ⟨x, hx, y, hy, z, hz, rfl⟩ := hp
  exact ⟨hx, hy, hz⟩

theorem mem_localTriples {S x y z : ℕ} (hx : x < S) (hy : y < S) (hz : z < S) :
    (x, y, z) ∈ localTriples S := by
  unfold localTriples
  simp only [List.mem_flatMap, List.mem_map, List.mem_range]
  exact ⟨x, hx, y, hy, z, hz, rfl⟩

theorem mem_tripleRow {S x y : ℕ} {p : ℕ × ℕ × ℕ}
    (hp : p ∈ (List.range S).map fun z => (x, y, z)) : p.1 = x ∧ p.2.1 = y := by
  simp only [List.mem_map, List.mem_range] at hp
  obtain ⟨z, _, rfl⟩ := hp
  exact ⟨rfl, rfl⟩

theorem mem_tripleSlab {S x : ℕ} {p : ℕ × ℕ × ℕ}
    (hp : p ∈ (List.range S).flatMap fun y => (List.range S).map fun z => (x, y, z)) :
    p.1 = x := by
  simp only [List.mem_flatMap, List.mem_range] at hp
  obtain ⟨y, _, hy⟩ := hp
  exact (mem_tripleRow hy).1

theorem localTriples_nodup (S : ℕ) : (localTriples S).Nodup := by
  unfold localTriples
  rw [List.nodup_flatMap]
  refine ⟨fun x _ => ?_, ?_⟩
  · rw [List.nodup_flatMap]
    refine ⟨fun y _ => ?_, ?_⟩
    · exact (List.nodup_range S).map fun a b h => congrArg (fun p => p.2.2) h
    · refine (List.pairwise_lt_range S).imp ?_
      intro a b hab p hpa hpb
      have h1 := (mem_tripleRow hpa).2
      have h2 := (mem_tripleRow hpb).2
      omega
  · refine (List.pairwise_lt_range S).imp ?_
    intro a b hab p hpa hpb
    have h1 := mem_tripleSlab hpa
    have h2 := mem_tripleSlab hpb
    omega

/-! ## Field lemmas for generated blocks -/

theorem mkBlock_position (noise : ℚ → ℚ → ℚ → ℚ) (S : ℕ) (cp : IVec3) (lx ly lz : ℕ) :
    (mkBlock noise S cp lx ly lz).block_position =
      ⟨scaledCoord S cp.x lx, scaledCoord S cp.y ly, scaledCoord S cp.z lz⟩ := by
  unfold mkBlock; split <;> rfl

theorem mkBlock_intersections (noise : ℚ → ℚ → ℚ → ℚ) (S : ℕ) (cp : IVec3) (lx ly lz : ℕ) :
    (mkBlock noise S cp lx ly lz).block_intersections = [] := by
  unfold mkBlock; split <;> rfl

theorem mkBlock_type (noise : ℚ → ℚ → ℚ → ℚ) (S : ℕ) (cp : IVec3) (lx ly lz : ℕ) :
    (mkBlock noise S cp lx ly lz).block_type =
      if sampleValue noise S cp lx ly lz > NOISE_THRESHOLD then BlockType.Dirt
      else BlockType.Air := by
  unfold mkBlock; split <;> simp_all

theorem genChunkData_length (noise : ℚ → ℚ → ℚ → ℚ) (S : ℕ) (cp : IVec3) :
    (genChunkData noise S cp).length = S * (S * S) := by
  unfold genChunkData
  rw [List.length_map, length_localTriples]

theorem genChunkData_getElem (noise : ℚ → ℚ → ℚ → ℚ) {S : ℕ} (cp : IVec3) {x y z : ℕ}
    (hx : x < S) (hy : y < S) (hz : z < S) :
    (genChunkData noise S cp)[x * S * S + y * S + z]? = some (mkBlock noise S cp x y z) := by
  unfold genChunkData
  rw [List.getElem?_map, localTriples_getElem hx hy hz]
  rfl

/-! ## The classification phase: what each entry's intersection list becomes -/

theorem neighborSolid_congr {d d' : List Block} (h : ∀ j, skelAt d' j = skelAt d j)
    (i : ℕ) : neighborSolid d' i = neighborSolid d i := by
  have hi := h i
  unfold skelAt at hi
  unfold neighborSolid
  cases h1 : d'[i]? with
  | none => cases h2 : d[i]? <;> simp [h1, h2] at hi ⊢
  | some b =>
    cases h2 : d[i]? with
    | none => simp [h1, h2] at hi
    | some c =>
      simp only [h1, h2, Option.map_some] at hi
      have : b.block_type = c.block_type := (Prod.mk.injEq _ _ _ _).mp (Option.some.injEq _ _ ▸ hi) |>.1
      simp [this]

theorem pushFace_getElem_other {d : List Block} {i j : ℕ} (f : BlockFace) (hj : j ≠ i) :
    (pushFace d i f)[j]? = d[j]? := by
  unfold pushFace
  cases h : d[i]? with
  | none => rfl
  | some b => exact List.getElem?_set_ne (fun he => hj he.symm)

theorem pushFace_getElem_self {d : List Block} {i : ℕ} (f : BlockFace) :
    (pushFace d i f)[i]? = d[i]?.map (pushIntr f) := by
  unfold pushFace
  cases h : d[i]? with
  | none => simp [h]
  | some b => simp [List.getElem?_set_self', h, Function.const]

theorem pushFace_skel {d : List Block} {i : ℕ} (f : BlockFace) (j : ℕ) :
    skelAt (pushFace d i f) j = skelAt d j := by
  by_cases hj : j = i
  · subst hj
    unfold skelAt
    rw [pushFace_getElem_self]
    cases d[j]? <;> simp [pushIntr]
  · unfold skelAt
    rw [pushFace_getElem_other f hj]

theorem checkNeighbor_getElem_other {d : List Block} {index nIdx j : ℕ} (f : BlockFace)
    (hj : j ≠ index) : (checkNeighbor d index nIdx f)[j]? = d[j]? := by
  unfold checkNeighbor
  by_cases hn : neighborSolid d nIdx
  · rw [if_pos hn]
    exact pushFace_getElem_other f hj
  · rw [if_neg hn]

theorem checkNeighbor_getElem_self {d : List Block} {index nIdx : ℕ} (f : BlockFace) :
    (checkNeighbor d index nIdx f)[index]? =
      d[index]?.map fun b => if neighborSolid d nIdx then pushIntr f b else b := by
  unfold checkNeighbor
  by_cases hn : neighborSolid d nIdx
  · rw [if_pos hn, pushFace_getElem_self]
    cases d[index]? <;> simp [hn]
  · rw [if_neg hn]
    cases d[index]? <;> simp [hn]

theorem checkNeighbor_skel {d : List Block} {index nIdx : ℕ} (f : BlockFace) (j : ℕ) :
    skelAt (checkNeighbor d index nIdx f) j = skelAt d j := by
  unfold checkNeighbor
  by_cases hn : neighborSolid d nIdx
  · rw [if_pos hn]
    exact pushFace_skel f j
  · rw [if_neg hn]

theorem stageIf_getElem_other (g : Prop) [Decidable g] {d : List Block} {index nIdx j : ℕ}
    (f : BlockFace) (hj : j ≠ index) : (stageIf g d index nIdx f)[j]? = d[j]? := by
  unfold stageIf
  by_cases hg : g
  · rw [if_pos hg]
    exact checkNeighbor_getElem_other f hj
  · rw [if_neg hg]

theorem stageIf_getElem_self (g : Prop) [Decidable g] {d : List Block} {index nIdx : ℕ}
    (f : BlockFace) :
    (stageIf g d index nIdx f)[index]? =
      d[index]?.map fun b => if g ∧ neighborSolid d nIdx then pushIntr f b else b := by
  unfold stageIf
  by_cases hg : g
  · rw [if_pos hg, checkNeighbor_getElem_self]
    cases d[index]? <;> simp [hg]
  · rw [if_neg hg]
    cases d[index]? <;> simp [hg]

theorem stageIf_skel (g : Prop) [Decidable g] {d : List Block} {index nIdx : ℕ}
    (f : BlockFace) (j : ℕ) : skelAt (stageIf g d index nIdx f) j = skelAt d j := by
  unfold stageIf
  by_cases hg : g
  · rw [if_pos hg]
    exact checkNeighbor_skel f j
  · rw [if_neg hg]

theorem ite_pushIntr (c : Prop) [Decidable c] (f : BlockFace) (b : Block) :
    (if c then pushIntr f b else b) =
      { b with block_intersections := b.block_intersections ++ (if c then [f] else []) } := by
  by_cases hc : c
  · rw [if_pos hc, if_pos hc]
    rfl
  · rw [if_neg hc, if_neg hc]
    simp

theorem stageIf_getSome (g : Prop) [Decidable g] (nIdx : ℕ) (f : BlockFace)
    {d0 d : List Block} {index : ℕ} {c : Block}
    (hsk : ∀ j, skelAt d j = skelAt d0 j) (hc : d[index]? = some c) :
    (stageIf g d index nIdx f)[index]? =
        some (if g ∧ neighborSolid d0 nIdx then pushIntr f c else c)
      ∧ ∀ j, skelAt (stageIf g d index nIdx f) j = skelAt d0 j := by
  refine ⟨?_, fun j => (stageIf_skel g f j).trans (hsk j)⟩
  rw [stageIf_getElem_self, hc, Option.map_some', neighborSolid_congr hsk nIdx]

theorem sixStages_getElem_other {S x y z : ℕ} {d : List Block} {j : ℕ}
    (hj : j ≠ chunkIndex S x y z) : (sixStages S x y z d)[j]? = d[j]? := by
  show (stageIf (0 < z)
          (stageIf (z < S - 1)
            (stageIf (x < S - 1)
              (stageIf (0 < x)
                (stageIf (0 < y)
                  (stageIf (y < S - 1) d (chunkIndex S x y z)
                    (chunkIndex S x y z + S) BlockFace.Top)
                  (chunkIndex S x y z) (chunkIndex S x y z - S) BlockFace.Bottom)
                (chunkIndex S x y z) (chunkIndex S x y z - 1) BlockFace.Left)
              (chunkIndex S x y z) (chunkIndex S x y z + 1) BlockFace.Right)
            (chunkIndex S x y z) (chunkIndex S x y z + S * S) BlockFace.Front)
          (chunkIndex S x y z) (chunkIndex S x y z - S * S) BlockFace.Back)[j]? = d[j]?
  rw [stageIf_getElem_other _ _ hj, stageIf_getElem_other _ _ hj,
      stageIf_getElem_other _ _ hj, stageIf_getElem_other _ _ hj,
      stageIf_getElem_other _ _ hj, stageIf_getElem_other _ _ hj]

theorem sixStages_skel (S x y z : ℕ) (d : List Block) (j : ℕ) :
    skelAt (sixStages S x y z d) j = skelAt d j := by
  show skelAt (stageIf (0 < z)
          (stageIf (z < S - 1)
            (stageIf (x < S - 1)
              (stageIf (0 < x)
                (stageIf (0 < y)
                  (stageIf (y < S - 1) d (chunkIndex S x y z)
                    (chunkIndex S x y z + S) BlockFace.Top)
                  (chunkIndex S x y z) (chunkIndex S x y z - S) BlockFace.Bottom)
                (chunkIndex S x y z) (chunkIndex S x y z - 1) BlockFace.Left)
              (chunkIndex S x y z) (chunkIndex S x y z + 1) BlockFace.Right)
            (chunkIndex S x y z) (chunkIndex S x y z + S * S) BlockFace.Front)
          (chunkIndex S x y z) (chunkIndex S x y z - S * S) BlockFace.Back) j = skelAt d j
  rw [stageIf_skel, stageIf_skel, stageIf_skel, stageIf_skel, stageIf_skel, stageIf_skel]

theorem sixStages_getElem_self (S x y z : ℕ) (d : List Block) {b : Block}
    (h : d[chunkIndex S x y z]? = some b) :
    (sixStages S x y z d)[chunkIndex S x y z]? =
      some { b with block_intersections := b.block_intersections ++ stepFaces S x y z d } := by
  obtain ⟨e1, s1⟩ := stageIf_getSome (y < S - 1) (chunkIndex S x y z + S) BlockFace.Top
    (fun j => rfl) h
  obtain ⟨e2, s2⟩ := stageIf_getSome (0 < y) (chunkIndex S x y z - S) BlockFace.Bottom s1 e1
  obtain ⟨e3, s3⟩ := stageIf_getSome (0 < x) (chunkIndex S x y z - 1) BlockFace.Left s2 e2
  obtain ⟨e4, s4⟩ := stageIf_getSome (x < S - 1) (chunkIndex S x y z + 1) BlockFace.Right s3 e3
  obtain ⟨e5, s5⟩ := stageIf_getSome (z < S - 1) (chunkIndex S x y z + S * S) BlockFace.Front s4 e4
  obtain ⟨e6, _⟩ := stageIf_getSome (0 < z) (chunkIndex S x y z - S * S) BlockFace.Back s5 e5
  show (stageIf (0 < z)
          (stageIf (z < S - 1)
            (stageIf (x < S - 1)
              (stageIf (0 < x)
                (stageIf (0 < y)
                  (stageIf (y < S - 1) d (chunkIndex S x y z)
                    (chunkIndex S x y z + S) BlockFace.Top)
                  (chunkIndex S x y z) (chunkIndex S x y z - S) BlockFace.Bottom)
                (chunkIndex S x y z) (chunkIndex S x y z - 1) BlockFace.Left)
              (chunkIndex S x y z) (chunkIndex S x y z + 1) BlockFace.Right)
            (chunkIndex S x y z) (chunkIndex S x y z + S * S) BlockFace.Front)
          (chunkIndex S x y z) (chunkIndex S x y z - S * S)
          BlockFace.Back)[chunkIndex S x y z]? = _
  rw [e6]
  congr 1
  simp only [ite_pushIntr]
  cases b
  simp [stepFaces, List.append_assoc]

theorem classifyStep_getElem_other (S x y z : ℕ) (d : List Block) {j : ℕ}
    (hj : j ≠ chunkIndex S x y z) : (classifyStep S d x y z)[j]? = d[j]? := by
  unfold classifyStep
  cases h : d[chunkIndex S x y z]? with
  | none => rfl
  | some b =>
    show (if b.block_type = BlockType.Air then d else sixStages S x y z d)[j]? = d[j]?
    by_cases hair : b.block_type = BlockType.Air
    · rw [if_pos hair]
    · rw [if_neg hair]
      exact sixStages_getElem_other hj

theorem classifyStep_skel (S x y z : ℕ) (d : List Block) (j : ℕ) :
    skelAt (classifyStep S d x y z) j = skelAt d j := by
  unfold classifyStep
  cases h : d[chunkIndex S x y z]? with
  | none => rfl
  | some b =>
    show skelAt (if b.block_type = BlockType.Air then d else sixStages S x y z d) j = skelAt d j
    by_cases hair : b.block_type = BlockType.Air
    · rw [if_pos hair]
    · rw [if_neg hair]
      exact sixStages_skel S x y z d j

theorem classifyStep_getElem_self (S x y z : ℕ) (d : List Block) :
    (classifyStep S d x y z)[chunkIndex S x y z]? =
      d[chunkIndex S x y z]?.map fun c =>
        if c.block_type = BlockType.Air then c
        else { c with block_intersections := c.block_intersections ++ stepFaces S x y z d } := by
  unfold classifyStep
  cases h : d[chunkIndex S x y z]? with
  | none => simp only [h, Option.map_none']
  | some b =>
    show (if b.block_type = BlockType.Air then d else sixStages S x y z d)[chunkIndex S x y z]? = _
    rw [Option.map_some']
    by_cases hair : b.block_type = BlockType.Air
    · rw [if_pos hair, h, if_pos hair]
    · rw [if_neg hair, sixStages_getElem_self S x y z d h, if_neg hair]

theorem foldSteps_getElem_other (S : ℕ) :
    ∀ (l : List (ℕ × ℕ × ℕ)) (d : List Block) (j : ℕ),
      (∀ p ∈ l, chunkIndex S p.1 p.2.1 p.2.2 ≠ j) →
      (l.foldl (fun d p => classifyStep S d p.1 p.2.1 p.2.2) d)[j]? = d[j]? := by
  intro l
  induction l with
  | nil => intro d j _; rfl
  | cons p l ih =>
    intro d j hp
    rw [List.foldl_cons, ih _ j fun q hq => hp q (List.mem_cons_of_mem p hq)]
    exact classifyStep_getElem_other S p.1 p.2.1 p.2.2 d
      (Ne.symm (hp p (List.mem_cons_self p l)))

theorem foldSteps_skel (S : ℕ) :
    ∀ (l : List (ℕ × ℕ × ℕ)) (d : List Block) (j : ℕ),
      skelAt (l.foldl (fun d p => classifyStep S d p.1 p.2.1 p.2.2) d) j = skelAt d j := by
  intro l
  induction l with
  | nil => intro d j; rfl
  | cons p l ih =>
    intro d j
    rw [List.foldl_cons, ih _ j]
    exact classifyStep_skel S p.1 p.2.1 p.2.2 d j

theorem length_eq_of_skel {d d' : List Block} (h : ∀ j, skelAt d' j = skelAt d j) :
    d'.length = d.length := by
  by_contra hne
  have hnone : ∀ (a : List Block) (j : ℕ), a.length ≤ j → skelAt a j = none := by
    intro a j hj
    unfold skelAt
    rw [List.getElem?_eq_none hj]
    rfl
  have hsome : ∀ (a : List Block) (j : ℕ), j < a.length → skelAt a j ≠ none := by
    intro a j hj
    unfold skelAt
    cases hh : a[j]? with
    | none =>
      have := List.getElem?_eq_none_iff.mp hh
      omega
    | some b => simp
  rcases Nat.lt_or_ge d'.length d.length with hlt | hge
  · exact hsome d d'.length hlt (by rw [← h d'.length, hnone d' _ (le_refl _)])
  · have hlt : d.length < d'.length := by omega
    exact hsome d' d.length hlt (by rw [h d.length, hnone d _ (le_refl _)])

theorem classifyChunk_skel (S : ℕ) (d : List Block) (j : ℕ) :
    skelAt (classifyChunk S d) j = skelAt d j :=
  foldSteps_skel S (localTriples S) d j

theorem classifyChunk_length (S : ℕ) (d : List Block) :
    (classifyChunk S d).length = d.length :=
  length_eq_of_skel fun j => classifyChunk_skel S d j

theorem chunkIndex_inj {S a b c x y z : ℕ} (ha : a < S) (hb : b < S) (hc : c < S)
    (hx : x < S) (hy : y < S) (hz : z < S)
    (he : chunkIndex S a b c = chunkIndex S x y z) : a = x ∧ b = y ∧ c = z := by
  have hS : 0 < S := Nat.pos_of_ne_zero fun h0 => by omega
  have e1 : chunkIndex S a b c = (b + c * S) * S + a := by unfold chunkIndex; ring
  have e2 : chunkIndex S x y z = (y + z * S) * S + x := by unfold chunkIndex; ring
  rw [e1, e2] at he
  have hm : ((b + c * S) * S + a) % S = ((y + z * S) * S + x) % S := by rw [he]
  rw [(div_mul_add' ha).2, (div_mul_add' hx).2] at hm
  have hd : ((b + c * S) * S + a) / S = ((y + z * S) * S + x) / S := by rw [he]
  rw [(div_mul_add' ha).1, (div_mul_add' hx).1] at hd
  have hd2 : c * S + b = z * S + y := by
    have h1 : b + c * S = c * S + b := by ring
    have h2 : y + z * S = z * S + y := by ring
    rw [← h1, ← h2]
    exact hd
  have hm2 : (c * S + b) % S = (z * S + y) % S := by rw [hd2]
  rw [(div_mul_add' hb).2, (div_mul_add' hy).2] at hm2
  have hd3 : (c * S + b) / S = (z * S + y) / S := by rw [hd2]
  rw [(div_mul_add' hb).1, (div_mul_add' hy).1] at hd3
  exact ⟨hm, hm2, hd3⟩

/-- The bridge theorem for the classification phase: the entry at
`chunkIndex S x y z` of the classified data is the original entry,
untouched when it is `Air`, and with the six conditional faces
(`stepFaces`, evaluated against the original data) appended otherwise. -/
theorem classifyChunk_getElem (S : ℕ) (d : List Block) {x y z : ℕ}
    (hx : x < S) (hy : y < S) (hz : z < S) :
    (classifyChunk S d)[chunkIndex S x y z]? =
      d[chunkIndex S x y z]?.map fun c =>
        if c.block_type = BlockType.Air then c
        else { c with block_intersections := c.block_intersections ++ stepFaces S x y z d } := by
  have hinj : ∀ p ∈ localTriples S,
      chunkIndex S p.1 p.2.1 p.2.2 = chunkIndex S x y z → p = (x, y, z) := by
    intro p hp he
    obtain ⟨h1, h2, h3⟩ := localTriples_mem hp
    obtain ⟨e1, e2, e3⟩ := chunkIndex_inj h1 h2 h3 hx hy hz he
    exact Prod.ext e1 (Prod.ext e2 e3)
  obtain ⟨l1, l2, hsplit⟩ := List.append_of_mem (mem_localTriples hx hy hz)
  have hnd := localTriples_nodup S
  rw [hsplit] at hnd
  obtain ⟨hnd1, hnd2, hdisj⟩ := List.nodup_append.mp hnd
  have hnm1 : (x, y, z) ∉ l1 := fun hmem => hdisj hmem (List.mem_cons_self _ _)
  have hnm2 : (x, y, z) ∉ l2 := (List.nodup_cons.mp hnd2).1
  have hl1 : ∀ p ∈ l1, chunkIndex S p.1 p.2.1 p.2.2 ≠ chunkIndex S x y z := by
    intro p hp he
    have hpl : p ∈ localTriples S := by
      rw [hsplit]; exact List.mem_append_left _ hp
    exact hnm1 (hinj p hpl he ▸ hp)
  have hl2 : ∀ p ∈ l2, chunkIndex S p.1 p.2.1 p.2.2 ≠ chunkIndex S x y z := by
    intro p hp he
    have hpl : p ∈ localTriples S := by
      rw [hsplit]; exact List.mem_append_right _ (List.mem_cons_of_mem _ hp)
    exact hnm2 (hinj p hpl he ▸ hp)
  unfold classifyChunk
  rw [hsplit, List.foldl_append]
  simp only [List.foldl_cons]
  rw [foldSteps_getElem_other S l2 _ _ hl2]
  have hbase : ∀ j, skelAt (List.foldl (fun d p => classifyStep S d p.1 p.2.1 p.2.2) d l1) j
      = skelAt d j := fun j => foldSteps_skel S l1 d j
  have hsf : stepFaces S x y z (List.foldl (fun d p => classifyStep S d p.1 p.2.1 p.2.2) d l1)
      = stepFaces S x y z d := by
    unfold stepFaces
    rw [neighborSolid_congr hbase, neighborSolid_congr hbase, neighborSolid_congr hbase,
        neighborSolid_congr hbase, neighborSolid_congr hbase, neighborSolid_congr hbase]
  rw [classifyStep_getElem_self, hsf, foldSteps_getElem_other S l1 d _ hl1]

/-! ## The emission phase: characterisation of the four buffers -/

theorem emitBlock_emits {acc : MeshBufs} {b : Block} (hb : emits b) :
    emitBlock acc b =
      { vertices := acc.vertices ++ quadVerts b.block_position
        indices := acc.indices ++ quadIndicesAt acc.vertices.length
        normals := acc.normals ++ quadNormals
        uvs := acc.uvs ++ quadUVs } := by
  unfold emitBlock
  rw [if_pos hb]
  have hlen : (acc.vertices ++ quadVerts b.block_position).length - 4 = acc.vertices.length := by
    simp [quadVerts]
  simp only [hlen]
  rfl

theorem emitBlock_skips {acc : MeshBufs} {b : Block} (hb : ¬ emits b) :
    emitBlock acc b = acc := by
  unfold emitBlock
  rw [if_neg hb]

theorem foldl_emitBlock_eq :
    ∀ (d : List Block) (acc : MeshBufs),
      (d.foldl emitBlock acc).vertices =
          acc.vertices ++ d.flatMap (fun b => if emits b then quadVerts b.block_position else [])
      ∧ (d.foldl emitBlock acc).normals =
          acc.normals ++ d.flatMap (fun b => if emits b then quadNormals else [])
      ∧ (d.foldl emitBlock acc).uvs =
          acc.uvs ++ d.flatMap (fun b => if emits b then quadUVs else [])
      ∧ (d.foldl emitBlock acc).indices =
          acc.indices ++ indsFrom acc.vertices.length d := by
  intro d
  induction d with
  | nil => intro acc; simp [indsFrom]
  | cons b rest ih =>
    intro acc
    rw [List.foldl_cons]
    by_cases hb : emits b
    · rw [emitBlock_emits hb]
      obtain ⟨hv, hn, hu, hi⟩ := ih
        { vertices := acc.vertices ++ quadVerts b.block_position
          indices := acc.indices ++ quadIndicesAt acc.vertices.length
          normals := acc.normals ++ quadNormals
          uvs := acc.uvs ++ quadUVs }
      refine ⟨?_, ?_, ?_, ?_⟩
      · rw [hv]
        simp [hb, List.append_assoc]
      · rw [hn]
        simp [hb, List.append_assoc]
      · rw [hu]
        simp [hb, List.append_assoc]
      · rw [hi]
        have h4 : (acc.vertices ++ quadVerts b.block_position).length =
            acc.vertices.length + 4 := by simp [quadVerts]
        rw [h4]
        show _ = acc.indices ++ indsFrom acc.vertices.length (b :: rest)
        rw [indsFrom, if_pos hb, List.append_assoc]
    · rw [emitBlock_skips hb]
      obtain ⟨hv, hn, hu, hi⟩ := ih acc
      refine ⟨?_, ?_, ?_, ?_⟩
      · rw [hv]
        simp [hb]
      · rw [hn]
        simp [hb]
      · rw [hu]
        simp [hb]
      · rw [hi]
        show _ = acc.indices ++ indsFrom acc.vertices.length (b :: rest)
        rw [indsFrom, if_neg hb]

theorem buildMeshData_positions (d : List Block) :
    (buildMeshData d).positions =
      d.flatMap fun b => if emits b then quadVerts b.block_position else [] := by
  unfold buildMeshData
  have := (foldl_emitBlock_eq d ⟨[], [], [], []⟩).1
  simpa using this

theorem buildMeshData_normals (d : List Block) :
    (buildMeshData d).normals =
      d.flatMap fun b => if emits b then quadNormals else [] := by
  unfold buildMeshData
  have := (foldl_emitBlock_eq d ⟨[], [], [], []⟩).2.1
  simpa using this

theorem buildMeshData_uvs (d : List Block) :
    (buildMeshData d).uvs =
      d.flatMap fun b => if emits b then quadUVs else [] := by
  unfold buildMeshData
  have := (foldl_emitBlock_eq d ⟨[], [], [], []⟩).2.2.1
  simpa using this

theorem buildMeshData_indices (d : List Block) :
    (buildMeshData d).indices = indsFrom 0 d := by
  unfold buildMeshData
  have := (foldl_emitBlock_eq d ⟨[], [], [], []⟩).2.2.2
  simpa using this

theorem flatMap_emit_length {α : Type _} (d : List Block) (g : Block → List α)
    (hg : ∀ b, (g b).length = 4) :
    (d.flatMap fun b => if emits b then g b else []).length = 4 * emittedCount d := by
  induction d with
  | nil => simp [emittedCount]
  | cons b rest ih =>
    rw [List.flatMap_cons]
    by_cases hb : emits b
    · rw [if_pos hb]
      simp only [List.length_append, ih, hg b]
      unfold emittedCount
      rw [List.filter_cons, if_pos hb]
      simp [Nat.mul_add, Nat.mul_succ]
      omega
    · rw [if_neg hb]
      simp only [List.nil_append, ih]
      unfold emittedCount
      rw [List.filter_cons, if_neg hb]

theorem indsFrom_length (d : List Block) : ∀ m : ℕ, (indsFrom m d).length = 6 * emittedCount d := by
  induction d with
  | nil => intro m; simp [indsFrom, emittedCount]
  | cons b rest ih =>
    intro m
    unfold indsFrom
    by_cases hb : emits b
    · rw [if_pos hb]
      simp only [List.length_append, ih]
      unfold emittedCount
      rw [List.filter_cons, if_pos hb]
      simp [quadIndicesAt, Nat.mul_succ]
      omega
    · rw [if_neg hb, ih]
      unfold emittedCount
      rw [List.filter_cons, if_neg hb]

theorem indsFrom_bounds (d : List Block) :
    ∀ m : ℕ, ∀ j ∈ indsFrom m d, j < m + 4 * emittedCount d := by
  induction d with
  | nil => intro m j hj; simp [indsFrom] at hj
  | cons b rest ih =>
    intro m j hj
    unfold indsFrom at hj
    by_cases hb : emits b
    · rw [if_pos hb] at hj
      have hcnt : emittedCount (b :: rest) = emittedCount rest + 1 := by
        unfold emittedCount
        rw [List.filter_cons, if_pos hb]
        simp
      rw [hcnt]
      rcases List.mem_append.mp hj with hq | hr
      · simp only [quadIndicesAt, List.mem_cons, List.mem_singleton] at hq
        rcases hq with rfl | rfl | rfl | rfl | rfl | h
        · omega
        · omega
        · omega
        · omega
        · omega
        · simp at h
          omega
      · have := ih (m + 4) j hr
        omega
    · rw [if_neg hb] at hj
      have hcnt : emittedCount (b :: rest) = emittedCount rest := by
        unfold emittedCount
        rw [List.filter_cons, if_neg hb]
      rw [hcnt]
      have := ih m j hj
      omega

/-! ## Arithmetic of the scaled (world) coordinates -/

theorem wrap32_eq_self {n : ℤ} (h : i32range n) : wrap32 n = n := by
  obtain ⟨h1, h2⟩ := h
  unfold wrap32
  have he : (n + 2 ^ 31) % 2 ^ 32 = n + 2 ^ 31 := Int.emod_eq_of_lt (by omega) (by omega)
  omega

theorem scaledCoord_exact {c : ℤ} {l : ℕ} (hl : l < CHUNK_SIZE)
    (h1 : -(2 ^ 31) ≤ c * 16) (h2 : c * 16 + 15 < 2 ^ 31) :
    scaledCoord CHUNK_SIZE c l = c * 16 + l := by
  have hl16 : l < 16 := hl
  have hlz : (l : ℤ) < 16 := by exact_mod_cast hl16
  have hlz0 : (0 : ℤ) ≤ (l : ℤ) := Int.ofNat_nonneg l
  unfold scaledCoord
  have hwS : wrap32 (CHUNK_SIZE : ℤ) = 16 := by decide
  have hwl : wrap32 (l : ℤ) = l := wrap32_eq_self ⟨by omega, by omega⟩
  have hwm : wrap32 (c * 16) = c * 16 := wrap32_eq_self ⟨h1, by omega⟩
  rw [hwS, hwl, hwm, wrap32_eq_self ⟨by omega, by omega⟩]
  omega

/-! ## Classification is the identity on an all-Air chunk -/

theorem classifyStep_air {S x y z : ℕ} {d : List Block}
    (h : ∀ b ∈ d, b.block_type = BlockType.Air) : classifyStep S d x y z = d := by
  unfold classifyStep
  cases hh : d[chunkIndex S x y z]? with
  | none => rfl
  | some b =>
    show (if b.block_type = BlockType.Air then d else sixStages S x y z d) = d
    rw [if_pos (h b (List.getElem?_mem hh))]

theorem foldSteps_air (S : ℕ) :
    ∀ (l : List (ℕ × ℕ × ℕ)) (d : List Block),
      (∀ b ∈ d, b.block_type = BlockType.Air) →
      l.foldl (fun d p => classifyStep S d p.1 p.2.1 p.2.2) d = d := by
  intro l
  induction l with
  | nil => intro d _; rfl
  | cons p l ih =>
    intro d h
    rw [List.foldl_cons, classifyStep_air h]
    exact ih d h

theorem classifyChunk_air {S : ℕ} {d : List Block}
    (h : ∀ b ∈ d, b.block_type = BlockType.Air) : classifyChunk S d = d :=
  foldSteps_air S (localTriples S) d h

/-! ## Solidity of a generated cell -/

theorem neighborSolid_gen (noise : ℚ → ℚ → ℚ → ℚ) {S : ℕ} (cp : IVec3) {a b c : ℕ}
    (ha : a < S) (hb : b < S) (hc : c < S) :
    neighborSolid (genChunkData noise S cp) (a * S * S + b * S + c) =
      solidAt noise S cp a b c := by
  unfold neighborSolid
  rw [genChunkData_getElem noise cp ha hb hc]
  unfold solidAt
  show decide ((mkBlock noise S cp a b c).block_type ≠ BlockType.Air) = _
  rw [mkBlock_type]
  by_cases h : sampleValue noise S cp a b c > NOISE_THRESHOLD
  · rw [if_pos h]
    simp [h]
  · rw [if_neg h]
    simp [h]

theorem faceEntry_congr {gA gB : Prop} [Decidable gA] [Decidable gB] {nsA nsB : Bool}
    (hg : gA ↔ gB) (hns : gB → nsA = nsB) (l : List BlockFace) :
    (if gA ∧ nsA then l else []) = (if gB ∧ nsB then l else []) := by
  by_cases h : gB
  · rw [hns h]
    exact if_congr (and_congr_left fun _ => hg) rfl rfl
  · rw [if_neg fun hcon => h (hg.mp hcon.1), if_neg fun hcon => h hcon.1]

/-! ## The claims -/

/-- C2 (amended): `create_chunk_mesh` generates exactly `CHUNK_SIZE ^ 3`
voxels, and the voxel stored at linear index `x·S² + y·S + z` (the
generation loop pushes in `x`-major order, not the `x + y·S + z·S²` order
the claim states) has `block_position = chunkCoord * CHUNK_SIZE + (x, y, z)`
whenever that arithmetic stays inside the `i32` range. -/
theorem claim_C2 (noise : ℚ → ℚ → ℚ → ℚ) (cp : IVec3) (x y z : ℕ)
    (hx : x < CHUNK_SIZE) (hy : y < CHUNK_SIZE) (hz : z < CHUNK_SIZE)
    (hx1 : -(2 ^ 31) ≤ cp.x * 16) (hx2 : cp.x * 16 + 15 < 2 ^ 31)
    (hy1 : -(2 ^ 31) ≤ cp.y * 16) (hy2 : cp.y * 16 + 15 < 2 ^ 31)
    (hz1 : -(2 ^ 31) ≤ cp.z * 16) (hz2 : cp.z * 16 + 15 < 2 ^ 31) :
    (genChunkData noise CHUNK_SIZE cp).length = CHUNK_SIZE ^ 3 ∧
    ((genChunkData noise CHUNK_SIZE cp)[x * CHUNK_SIZE * CHUNK_SIZE + y * CHUNK_SIZE + z]?).map
        Block.block_position =
      some ⟨cp.x * 16 + x, cp.y * 16 + y, cp.z * 16 + z⟩ := by
  constructor
  · rw [genChunkData_length]
    ring
  · rw [genChunkData_getElem noise cp hx hy hz, Option.map_some', mkBlock_position,
        scaledCoord_exact hx hx1 hx2, scaledCoord_exact hy hy1 hy2,
        scaledCoord_exact hz hz1 hz2]

/-- Witness for C2 at chunk `(3, -2, 7)`, local `(1, 2, 3)`. -/
theorem claim_C2_witness :
    (genChunkData zeroNoise CHUNK_SIZE ⟨3, -2, 7⟩).length = CHUNK_SIZE ^ 3 ∧
    ((genChunkData zeroNoise CHUNK_SIZE
        ⟨3, -2, 7⟩)[1 * CHUNK_SIZE * CHUNK_SIZE + 2 * CHUNK_SIZE + 3]?).map
        Block.block_position = some ⟨49, -30, 115⟩ := by
  exact claim_C2 zeroNoise ⟨3, -2, 7⟩ 1 2 3 (by decide) (by decide) (by decide)
    (by decide) (by decide) (by decide) (by decide) (by decide) (by decide)

/-- Counterexample to C2 as stated: at chunk `(0,0,0)` the voxel at the
claimed linear index `x + y·S + z·S²` of local `(0, 0, 1)` (index 256) has
`block_position = (1, 0, 0)`, not `(0, 0, 1)`: generation pushes in
`x`-major order. -/
theorem claim_C2_counterexample :
    ((genChunkData zeroNoise CHUNK_SIZE
        ⟨0, 0, 0⟩)[0 + 0 * CHUNK_SIZE + 1 * CHUNK_SIZE * CHUNK_SIZE]?).map
        Block.block_position = some ⟨1, 0, 0⟩ ∧
    (IVec3.mk 1 0 0 ≠ IVec3.mk 0 0 1) := by
  constructor
  · have h := @genChunkData_getElem zeroNoise CHUNK_SIZE (⟨0, 0, 0⟩ : IVec3)
      1 0 0 (by decide) (by decide) (by decide)
    have hidx : 0 + 0 * CHUNK_SIZE + 1 * CHUNK_SIZE * CHUNK_SIZE =
        1 * CHUNK_SIZE * CHUNK_SIZE + 0 * CHUNK_SIZE + 0 := by ring
    rw [hidx, h, Option.map_some', mkBlock_position]
    decide
  · decide

/-- C4 (amended): the `i32` world-coordinate arithmetic
`l + c * CHUNK_SIZE` computes the exact mathematical value whenever it fits
in the `i32` range; outside that range it silently wraps (see the
counterexample) — there is no `CoordinateOverflow` failure path. -/
theorem claim_C4 (c : ℤ) (l : ℕ) (hl : l < CHUNK_SIZE)
    (h1 : -(2 ^ 31) ≤ c * 16) (h2 : c * 16 + 15 < 2 ^ 31) :
    scaledCoord CHUNK_SIZE c l = c * 16 + l :=
  scaledCoord_exact hl h1 h2

/-- Witness for C4 at chunk coordinate 5, local 3. -/
theorem claim_C4_witness : scaledCoord CHUNK_SIZE 5 3 = 5 * 16 + 3 :=
  claim_C4 5 3 (by decide) (by decide) (by decide)

/-- Counterexample to C4 as stated: at chunk coordinate `2^27` the exact
world coordinate is `2^31`, but the computed value silently wraps to
`-2^31`; no overflow failure is raised. -/
theorem claim_C4_counterexample :
    scaledCoord CHUNK_SIZE 134217728 0 = -(2 ^ 31) ∧
    (134217728 : ℤ) * 16 + 0 = 2 ^ 31 := by
  constructor
  · decide
  · decide

/-- C6 (confirmed): a generated cell is `Dirt` (solid) iff its sampled noise
value is strictly greater than `NOISE_THRESHOLD`; a sample exactly equal to
the threshold yields `Air`. -/
theorem claim_C6 (noise : ℚ → ℚ → ℚ → ℚ) (cp : IVec3) (x y z : ℕ)
    (hx : x < CHUNK_SIZE) (hy : y < CHUNK_SIZE) (hz : z < CHUNK_SIZE) :
    (((genChunkData noise CHUNK_SIZE cp)[x * CHUNK_SIZE * CHUNK_SIZE + y * CHUNK_SIZE + z]?).map
        Block.block_type = some BlockType.Dirt ↔
      sampleValue noise CHUNK_SIZE cp x y z > NOISE_THRESHOLD) ∧
    (sampleValue noise CHUNK_SIZE cp x y z = NOISE_THRESHOLD →
      ((genChunkData noise CHUNK_SIZE cp)[x * CHUNK_SIZE * CHUNK_SIZE + y * CHUNK_SIZE + z]?).map
        Block.block_type = some BlockType.Air) := by
  rw [genChunkData_getElem noise cp hx hy hz, Option.map_some', mkBlock_type]
  constructor
  · by_cases h : sampleValue noise CHUNK_SIZE cp x y z > NOISE_THRESHOLD
    · simp [h]
    · simp [h]
  · intro he
    rw [if_neg (by rw [he]; exact lt_irrefl _)]

/-- Witness for C6 with the constant-zero sampler at chunk `(0,0,0)`,
local `(0,0,0)`. -/
theorem claim_C6_witness :
    (((genChunkData zeroNoise CHUNK_SIZE
        ⟨0, 0, 0⟩)[0 * CHUNK_SIZE * CHUNK_SIZE + 0 * CHUNK_SIZE + 0]?).map
        Block.block_type = some BlockType.Dirt ↔
      sampleValue zeroNoise CHUNK_SIZE ⟨0, 0, 0⟩ 0 0 0 > NOISE_THRESHOLD) ∧
    (sampleValue zeroNoise CHUNK_SIZE ⟨0, 0, 0⟩ 0 0 0 = NOISE_THRESHOLD →
      ((genChunkData zeroNoise CHUNK_SIZE
          ⟨0, 0, 0⟩)[0 * CHUNK_SIZE * CHUNK_SIZE + 0 * CHUNK_SIZE + 0]?).map
        Block.block_type = some BlockType.Air) :=
  claim_C6 zeroNoise ⟨0, 0, 0⟩ 0 0 0 (by decide) (by decide) (by decide)

/-- C9 (confirmed): the world coordinate computed for local `(0,0,0)` of
chunk `(1,0,0)` equals the one computed for local `(16,0,0)` of chunk
`(0,0,0)` (both are 16), and hence — the sampler being one fixed pure
function of the world coordinates, never reseeded per chunk — the sampled
noise values coincide. -/
theorem claim_C9 (noise : ℚ → ℚ → ℚ → ℚ) :
    scaledCoord CHUNK_SIZE 1 0 = scaledCoord CHUNK_SIZE 0 16 ∧
    scaledCoord CHUNK_SIZE 1 0 = 16 ∧
    sampleValue noise CHUNK_SIZE ⟨1, 0, 0⟩ 0 0 0 =
      sampleValue noise CHUNK_SIZE ⟨0, 0, 0⟩ 16 0 0 := by
  refine ⟨by decide, by decide, ?_⟩
  unfold sampleValue
  have h1 : scaledCoord CHUNK_SIZE (IVec3.mk 1 0 0).x 0 =
      scaledCoord CHUNK_SIZE (IVec3.mk 0 0 0).x 16 := by decide
  have h2 : scaledCoord CHUNK_SIZE (IVec3.mk 1 0 0).y 0 =
      scaledCoord CHUNK_SIZE (IVec3.mk 0 0 0).y 0 := by decide
  have h3 : scaledCoord CHUNK_SIZE (IVec3.mk 1 0 0).z 0 =
      scaledCoord CHUNK_SIZE (IVec3.mk 0 0 0).z 0 := by decide
  rw [h1, h2, h3]

/-- C10 (confirmed): on chunk data of length `CHUNK_SIZE ^ 3`, every access
of the classification loop body — the current block at
`chunkIndex x y z` and its six neighbours at `± 1`, `± CHUNK_SIZE`,
`± CHUNK_SIZE²` — is in bounds under the loop's guard, so the embedded
indexing (`·[·]?`) never returns `none` (the source never panics), and the
`usize` subtractions never underflow. -/
theorem claim_C10 (d : List Block) (hd : d.length = CHUNK_SIZE ^ 3) (x y z : ℕ)
    (hx : x < CHUNK_SIZE) (hy : y < CHUNK_SIZE) (hz : z < CHUNK_SIZE) :
    (d[chunkIndex CHUNK_SIZE x y z]?).isSome = true ∧
    (y < CHUNK_SIZE - 1 → (d[chunkIndex CHUNK_SIZE x y z + CHUNK_SIZE]?).isSome = true) ∧
    (0 < y → CHUNK_SIZE ≤ chunkIndex CHUNK_SIZE x y z ∧
      (d[chunkIndex CHUNK_SIZE x y z - CHUNK_SIZE]?).isSome = true) ∧
    (0 < x → 1 ≤ chunkIndex CHUNK_SIZE x y z ∧
      (d[chunkIndex CHUNK_SIZE x y z - 1]?).isSome = true) ∧
    (x < CHUNK_SIZE - 1 → (d[chunkIndex CHUNK_SIZE x y z + 1]?).isSome = true) ∧
    (z < CHUNK_SIZE - 1 →
      (d[chunkIndex CHUNK_SIZE x y z + CHUNK_SIZE * CHUNK_SIZE]?).isSome = true) ∧
    (0 < z → CHUNK_SIZE * CHUNK_SIZE ≤ chunkIndex CHUNK_SIZE x y z ∧
      (d[chunkIndex CHUNK_SIZE x y z - CHUNK_SIZE * CHUNK_SIZE]?).isSome = true) := by
  have hs : ∀ n : ℕ, n < d.length → (d[n]?).isSome = true := fun n hn => by
    simp [List.getElem?_eq_getElem hn]
  simp only [CHUNK_SIZE, chunkIndex] at hd hx hy hz ⊢
  norm_num at hd
  refine ⟨hs _ (by omega), fun h => hs _ (by omega), fun h => ⟨by omega, hs _ (by omega)⟩,
    fun h => ⟨by omega, hs _ (by omega)⟩, fun h => hs _ (by omega),
    fun h => hs _ (by omega), fun h => ⟨by omega, hs _ (by omega)⟩⟩

/-- Witness for C10 on a replicated list of 4096 blocks at `(x,y,z) = (1,1,1)`. -/
theorem claim_C10_witness :
    ((List.replicate 4096 airBlock)[chunkIndex CHUNK_SIZE 1 1 1]?).isSome = true ∧
    (1 < CHUNK_SIZE - 1 →
      ((List.replicate 4096 airBlock)[chunkIndex CHUNK_SIZE 1 1 1 + CHUNK_SIZE]?).isSome = true) ∧
    (0 < 1 → CHUNK_SIZE ≤ chunkIndex CHUNK_SIZE 1 1 1 ∧
      ((List.replicate 4096 airBlock)[chunkIndex CHUNK_SIZE 1 1 1 - CHUNK_SIZE]?).isSome = true) ∧
    (0 < 1 → 1 ≤ chunkIndex CHUNK_SIZE 1 1 1 ∧
      ((List.replicate 4096 airBlock)[chunkIndex CHUNK_SIZE 1 1 1 - 1]?).isSome = true) ∧
    (1 < CHUNK_SIZE - 1 →
      ((List.replicate 4096 airBlock)[chunkIndex CHUNK_SIZE 1 1 1 + 1]?).isSome = true) ∧
    (1 < CHUNK_SIZE - 1 →
      ((List.replicate 4096
          airBlock)[chunkIndex CHUNK_SIZE 1 1 1 + CHUNK_SIZE * CHUNK_SIZE]?).isSome = true) ∧
    (0 < 1 → CHUNK_SIZE * CHUNK_SIZE ≤ chunkIndex CHUNK_SIZE 1 1 1 ∧
      ((List.replicate 4096
          airBlock)[chunkIndex CHUNK_SIZE 1 1 1 - CHUNK_SIZE * CHUNK_SIZE]?).isSome = true) :=
  claim_C10 (List.replicate 4096 airBlock) (by norm_num [List.length_replicate, CHUNK_SIZE]) 1 1 1
    (by decide) (by decide) (by decide)

/-- C5 (amended): with chunk side length 0, generation yields an empty,
well-formed `MeshData` without crashing — but the average-intersections
statistic performs its floating-point division unguarded: at voxel count 0
it evaluates `0.0 / 0.0`, producing the non-finite value (modelled `none`)
instead of skipping the division. -/
theorem claim_C5 (noise : ℚ → ℚ → ℚ → ℚ) (cp : IVec3) :
    (create_chunk_mesh_S noise 0 cp).positions = [] ∧
    (create_chunk_mesh_S noise 0 cp).normals = [] ∧
    (create_chunk_mesh_S noise 0 cp).uvs = [] ∧
    (create_chunk_mesh_S noise 0 cp).indices = [] ∧
    meshInvariants (create_chunk_mesh_S noise 0 cp) ∧
    avgIntersections noise 0 cp = none := by
  have hp : (create_chunk_mesh_S noise 0 cp).positions = [] := rfl
  have hn : (create_chunk_mesh_S noise 0 cp).normals = [] := rfl
  have hu : (create_chunk_mesh_S noise 0 cp).uvs = [] := rfl
  have hi : (create_chunk_mesh_S noise 0 cp).indices = [] := rfl
  refine ⟨hp, hn, hu, hi, ⟨?_, ?_, ?_, ?_, ?_⟩, ?_⟩
  · rw [hp, hn]
  · rw [hp, hu]
    rfl
  · rw [hp]
    rfl
  · rw [hi, hp]
    rfl
  · intro i hmem
    rw [hi] at hmem
    exact absurd hmem (List.not_mem_nil i)
  · rfl

/-- Counterexample to C5 as stated: at chunk size 0 the voxel count is 0 and
the statistic's division is nevertheless performed, yielding the non-finite
`none` (the NaN of `0.0 / 0.0`) — the division is not guarded against a
zero voxel count. -/
theorem claim_C5_counterexample :
    (classifyChunk 0 (genChunkData zeroNoise 0 ⟨0, 0, 0⟩)).length = 0 ∧
    avgIntersections zeroNoise 0 ⟨0, 0, 0⟩ = none := by
  exact ⟨rfl, rfl⟩

/-- C7 (confirmed): every mesh produced by `create_chunk_mesh` (for any
sampler and any chunk coordinate), and the canonical cube mesh, satisfy the
buffer invariants: equal position/normal/uv lengths, position count a
multiple of 4, `6` indices per `4` vertices, and every index in range. -/
theorem claim_C7 :
    (∀ (noise : ℚ → ℚ → ℚ → ℚ) (cp : IVec3), meshInvariants (create_chunk_mesh noise cp)) ∧
    meshInvariants create_cube_mesh := by
  constructor
  · intro noise cp
    unfold create_chunk_mesh create_chunk_mesh_S meshInvariants
    rw [buildMeshData_positions, buildMeshData_normals, buildMeshData_uvs,
        buildMeshData_indices]
    have hp := flatMap_emit_length (classifyChunk CHUNK_SIZE (genChunkData noise CHUNK_SIZE cp))
      (fun b => quadVerts b.block_position) (fun b => by simp [quadVerts])
    have hn := flatMap_emit_length (classifyChunk CHUNK_SIZE (genChunkData noise CHUNK_SIZE cp))
      (fun _ => quadNormals) (fun b => by simp [quadNormals])
    have hu := flatMap_emit_length (classifyChunk CHUNK_SIZE (genChunkData noise CHUNK_SIZE cp))
      (fun _ => quadUVs) (fun b => by simp [quadUVs])
    have hi := indsFrom_length (classifyChunk CHUNK_SIZE (genChunkData noise CHUNK_SIZE cp)) 0
    refine ⟨?_, ?_, ?_, ?_, ?_⟩
    · rw [hp, hn]
    · rw [hp, hu]
    · rw [hp]; omega
    · rw [hi, hp]; omega
    · intro i hmem
      rw [hp]
      have := indsFrom_bounds (classifyChunk CHUNK_SIZE (genChunkData noise CHUNK_SIZE cp))
        0 i hmem
      omega
  · refine ⟨rfl, rfl, rfl, rfl, ?_⟩
    decide

/-- C8 (confirmed): `create_cube_mesh` returns exactly 24 positions, 24
normals, 24 uvs and 36 indices; the 4 vertices of each of the 6 faces lie on
that face's plane of the unit cube (dot product with the outward axis normal
equals 1/2) and carry exactly that outward unit normal; each of the 12
triangles draws its 3 indices from its own face's 4 vertices and is wound
counter-clockwise when viewed from outside the cube. -/
theorem claim_C8 :
    create_cube_mesh.positions.length = 24 ∧
    create_cube_mesh.normals.length = 24 ∧
    create_cube_mesh.uvs.length = 24 ∧
    create_cube_mesh.indices.length = 36 ∧
    (∀ f : Fin 6, ∀ k : Fin 4,
      create_cube_mesh.normals.getD (4 * f.1 + k.1) ⟨0, 0, 0⟩ = cubeOutwardNormal f.1 ∧
      vdot (create_cube_mesh.positions.getD (4 * f.1 + k.1) ⟨0, 0, 0⟩)
        (cubeOutwardNormal f.1) = 1 / 2) ∧
    (∀ t : Fin 12, ∀ j : Fin 3,
      4 * (t.1 / 2) ≤ create_cube_mesh.indices.getD (3 * t.1 + j.1) 0 ∧
      create_cube_mesh.indices.getD (3 * t.1 + j.1) 0 < 4 * (t.1 / 2) + 4) ∧
    (∀ t : Fin 12, ccwCheck create_cube_mesh t.1 (cubeOutwardNormal (t.1 / 2)) = true) := by
  refine ⟨rfl, rfl, rfl, rfl, ?_, ?_, ?_⟩
  · intro f k
    fin_cases f <;> fin_cases k <;>
      exact ⟨rfl, by norm_num [create_cube_mesh, cubeOutwardNormal, vdot]⟩
  · decide
  · intro t
    fin_cases t <;>
      norm_num [ccwCheck, create_cube_mesh, cubeOutwardNormal, vdot, vcross, vsub]

/-- C1 (amended): the emission phase emits exactly one fixed-orientation
quad — four vertices on the voxel's `Z - 0.5` plane, four `+Y` normals, the
four UV corners, and six indices forming two triangles — for each voxel
(`Air` or `Dirt` alike) whose neighbour-intersection record is empty after
classification, and emits nothing for voxels with a nonempty record.  In
particular every `Air` voxel, whose record is always empty, receives a quad:
the source tests only `block_intersections.is_empty()`, never the block
type. -/
theorem claim_C1 (noise : ℚ → ℚ → ℚ → ℚ) (cp : IVec3) :
    (create_chunk_mesh noise cp).positions =
      (classifyChunk CHUNK_SIZE (genChunkData noise CHUNK_SIZE cp)).flatMap
        (fun b => if emits b then quadVerts b.block_position else []) ∧
    (create_chunk_mesh noise cp).normals =
      (classifyChunk CHUNK_SIZE (genChunkData noise CHUNK_SIZE cp)).flatMap
        (fun b => if emits b then quadNormals else []) ∧
    (create_chunk_mesh noise cp).uvs =
      (classifyChunk CHUNK_SIZE (genChunkData noise CHUNK_SIZE cp)).flatMap
        (fun b => if emits b then quadUVs else []) ∧
    (create_chunk_mesh noise cp).indices =
      indsFrom 0 (classifyChunk CHUNK_SIZE (genChunkData noise CHUNK_SIZE cp)) := by
  unfold create_chunk_mesh create_chunk_mesh_S
  exact ⟨buildMeshData_positions _, buildMeshData_normals _, buildMeshData_uvs _,
    buildMeshData_indices _⟩

/-- Counterexample to C1 as stated: with the constant-zero sampler every
voxel of chunk `(0,0,0)` is `Air`, so the claim (quads only for solid
voxels, nothing for `Air`) demands an empty position buffer — yet the mesh
holds `4 · 16³ = 16384` positions, one quad per `Air` voxel. -/
theorem claim_C1_counterexample :
    (∀ b ∈ classifyChunk CHUNK_SIZE (genChunkData zeroNoise CHUNK_SIZE ⟨0, 0, 0⟩),
      b.block_type = BlockType.Air) ∧
    (create_chunk_mesh zeroNoise ⟨0, 0, 0⟩).positions.length = 16384 := by
  have hair : ∀ b ∈ genChunkData zeroNoise CHUNK_SIZE ⟨0, 0, 0⟩,
      b.block_type = BlockType.Air := by
    intro b hb
    unfold genChunkData at hb
    rw [List.mem_map] at hb
    obtain ⟨p, _, rfl⟩ := hb
    have hns : ¬ (sampleValue zeroNoise CHUNK_SIZE ⟨0, 0, 0⟩ p.1 p.2.1 p.2.2 >
        NOISE_THRESHOLD) := by
      unfold sampleValue zeroNoise NOISE_THRESHOLD
      norm_num
    rw [mkBlock_type, if_neg hns]
  have hid : classifyChunk CHUNK_SIZE (genChunkData zeroNoise CHUNK_SIZE ⟨0, 0, 0⟩) =
      genChunkData zeroNoise CHUNK_SIZE ⟨0, 0, 0⟩ := classifyChunk_air hair
  constructor
  · rw [hid]
    exact hair
  · unfold create_chunk_mesh create_chunk_mesh_S
    rw [buildMeshData_positions, hid,
        flatMap_emit_length _ _ (fun b => by simp [quadVerts])]
    have hemit : ∀ b ∈ genChunkData zeroNoise CHUNK_SIZE ⟨0, 0, 0⟩, emits b = true := by
      intro b hb
      unfold genChunkData at hb
      rw [List.mem_map] at hb
      obtain ⟨p, _, rfl⟩ := hb
      unfold emits
      rw [mkBlock_intersections]
      rfl
    have hcnt : emittedCount (genChunkData zeroNoise CHUNK_SIZE ⟨0, 0, 0⟩) =
        (genChunkData zeroNoise CHUNK_SIZE ⟨0, 0, 0⟩).length := by
      unfold emittedCount
      rw [List.filter_eq_self.mpr hemit]
    rw [hcnt, genChunkData_length]
    norm_num [CHUNK_SIZE]

/-- What the classification phase records for the voxel generated at local
`(a, b, c)`: nothing when it is `Air`; otherwise one entry per in-range
solid neighbour, with the face labels mapped `Top = +Y`, `Bottom = -Y`,
`Left = -Z`, `Right = +Z`, `Front = +X`, `Back = -X` (the loop's linear
index is transposed against the generation order, so the `±X` checks land
on the `Front`/`Back` labels and the `±Z` checks on `Right`/`Left`). -/
theorem classified_intersections (noise : ℚ → ℚ → ℚ → ℚ) (cp : IVec3) (a b c : ℕ)
    (ha : a < CHUNK_SIZE) (hb : b < CHUNK_SIZE) (hc : c < CHUNK_SIZE) :
    ((classifyChunk CHUNK_SIZE
        (genChunkData noise CHUNK_SIZE cp))[a * CHUNK_SIZE * CHUNK_SIZE + b * CHUNK_SIZE + c]?).map
        Block.block_intersections =
      some (if solidAt noise CHUNK_SIZE cp a b c then
          (if b + 1 < CHUNK_SIZE ∧ solidAt noise CHUNK_SIZE cp a (b + 1) c
            then [BlockFace.Top] else []) ++
          (if 0 < b ∧ solidAt noise CHUNK_SIZE cp a (b - 1) c
            then [BlockFace.Bottom] else []) ++
          (if 0 < c ∧ solidAt noise CHUNK_SIZE cp a b (c - 1)
            then [BlockFace.Left] else []) ++
          (if c + 1 < CHUNK_SIZE ∧ solidAt noise CHUNK_SIZE cp a b (c + 1)
            then [BlockFace.Right] else []) ++
          (if a + 1 < CHUNK_SIZE ∧ solidAt noise CHUNK_SIZE cp (a + 1) b c
            then [BlockFace.Front] else []) ++
          (if 0 < a ∧ solidAt noise CHUNK_SIZE cp (a - 1) b c
            then [BlockFace.Back] else [])
        else []) := by
  have hidx : a * CHUNK_SIZE * CHUNK_SIZE + b * CHUNK_SIZE + c =
      chunkIndex CHUNK_SIZE c b a := by
    unfold chunkIndex
    ring
  have hfaces : stepFaces CHUNK_SIZE c b a (genChunkData noise CHUNK_SIZE cp) =
      (if b + 1 < CHUNK_SIZE ∧ solidAt noise CHUNK_SIZE cp a (b + 1) c
        then [BlockFace.Top] else []) ++
      (if 0 < b ∧ solidAt noise CHUNK_SIZE cp a (b - 1) c
        then [BlockFace.Bottom] else []) ++
      (if 0 < c ∧ solidAt noise CHUNK_SIZE cp a b (c - 1)
        then [BlockFace.Left] else []) ++
      (if c + 1 < CHUNK_SIZE ∧ solidAt noise CHUNK_SIZE cp a b (c + 1)
        then [BlockFace.Right] else []) ++
      (if a + 1 < CHUNK_SIZE ∧ solidAt noise CHUNK_SIZE cp (a + 1) b c
        then [BlockFace.Front] else []) ++
      (if 0 < a ∧ solidAt noise CHUNK_SIZE cp (a - 1) b c
        then [BlockFace.Back] else []) := by
    unfold stepFaces
    have hTop : (if b < CHUNK_SIZE - 1 ∧ neighborSolid (genChunkData noise CHUNK_SIZE cp)
          (chunkIndex CHUNK_SIZE c b a + CHUNK_SIZE) then [BlockFace.Top] else []) =
        (if b + 1 < CHUNK_SIZE ∧ solidAt noise CHUNK_SIZE cp a (b + 1) c
          then [BlockFace.Top] else []) := by
      refine faceEntry_congr (by omega) (fun h => ?_) _
      have h2 : chunkIndex CHUNK_SIZE c b a + CHUNK_SIZE =
          a * CHUNK_SIZE * CHUNK_SIZE + (b + 1) * CHUNK_SIZE + c := by
        unfold chunkIndex
        ring
      rw [h2]
      exact neighborSolid_gen noise cp ha h hc
    have hBottom : (if 0 < b ∧ neighborSolid (genChunkData noise CHUNK_SIZE cp)
          (chunkIndex CHUNK_SIZE c b a - CHUNK_SIZE) then [BlockFace.Bottom] else []) =
        (if 0 < b ∧ solidAt noise CHUNK_SIZE cp a (b - 1) c
          then [BlockFace.Bottom] else []) := by
      refine faceEntry_congr Iff.rfl (fun h => ?_) _
      have h2 : chunkIndex CHUNK_SIZE c b a - CHUNK_SIZE =
          a * CHUNK_SIZE * CHUNK_SIZE + (b - 1) * CHUNK_SIZE + c := by
        simp only [chunkIndex, CHUNK_SIZE]
        omega
      rw [h2]
      exact neighborSolid_gen noise cp ha (by omega) hc
    have hLeft : (if 0 < c ∧ neighborSolid (genChunkData noise CHUNK_SIZE cp)
          (chunkIndex CHUNK_SIZE c b a - 1) then [BlockFace.Left] else []) =
        (if 0 < c ∧ solidAt noise CHUNK_SIZE cp a b (c - 1)
          then [BlockFace.Left] else []) := by
      refine faceEntry_congr Iff.rfl (fun h => ?_) _
      have h2 : chunkIndex CHUNK_SIZE c b a - 1 =
          a * CHUNK_SIZE * CHUNK_SIZE + b * CHUNK_SIZE + (c - 1) := by
        simp only [chunkIndex, CHUNK_SIZE]
        omega
      rw [h2]
      exact neighborSolid_gen noise cp ha hb (by omega)
    have hRight : (if c < CHUNK_SIZE - 1 ∧ neighborSolid (genChunkData noise CHUNK_SIZE cp)
          (chunkIndex CHUNK_SIZE c b a + 1) then [BlockFace.Right] else []) =
        (if c + 1 < CHUNK_SIZE ∧ solidAt noise CHUNK_SIZE cp a b (c + 1)
          then [BlockFace.Right] else []) := by
      refine faceEntry_congr (by omega) (fun h => ?_) _
      have h2 : chunkIndex CHUNK_SIZE c b a + 1 =
          a * CHUNK_SIZE * CHUNK_SIZE + b * CHUNK_SIZE + (c + 1) := by
        unfold chunkIndex
        ring
      rw [h2]
      exact neighborSolid_gen noise cp ha hb h
    have hFront : (if a < CHUNK_SIZE - 1 ∧ neighborSolid (genChunkData noise CHUNK_SIZE cp)
          (chunkIndex CHUNK_SIZE c b a + CHUNK_SIZE * CHUNK_SIZE)
          then [BlockFace.Front] else []) =
        (if a + 1 < CHUNK_SIZE ∧ solidAt noise CHUNK_SIZE cp (a + 1) b c
          then [BlockFace.Front] else []) := by
      refine faceEntry_congr (by omega) (fun h => ?_) _
      have h2 : chunkIndex CHUNK_SIZE c b a + CHUNK_SIZE * CHUNK_SIZE =
          (a + 1) * CHUNK_SIZE * CHUNK_SIZE + b * CHUNK_SIZE + c := by
        unfold chunkIndex
        ring
      rw [h2]
      exact neighborSolid_gen noise cp h hb hc
    have hBack : (if 0 < a ∧ neighborSolid (genChunkData noise CHUNK_SIZE cp)
          (chunkIndex CHUNK_SIZE c b a - CHUNK_SIZE * CHUNK_SIZE)
          then [BlockFace.Back] else []) =
        (if 0 < a ∧ solidAt noise CHUNK_SIZE cp (a - 1) b c
          then [BlockFace.Back] else []) := by
      refine faceEntry_congr Iff.rfl (fun h => ?_) _
      have h2 : chunkIndex CHUNK_SIZE c b a - CHUNK_SIZE * CHUNK_SIZE =
          (a - 1) * CHUNK_SIZE * CHUNK_SIZE + b * CHUNK_SIZE + c := by
        simp only [chunkIndex, CHUNK_SIZE]
        omega
      rw [h2]
      exact neighborSolid_gen noise cp (by omega) hb hc
    rw [hTop, hBottom, hLeft, hRight, hFront, hBack]
  rw [hidx, classifyChunk_getElem CHUNK_SIZE (genChunkData noise CHUNK_SIZE cp) hc hb ha,
      ← hidx, genChunkData_getElem noise cp ha hb hc]
  simp only [Option.map_some']
  by_cases hsol : sampleValue noise CHUNK_SIZE cp a b c > NOISE_THRESHOLD
  · have htype : (mkBlock noise CHUNK_SIZE cp a b c).block_type = BlockType.Dirt := by
      rw [mkBlock_type, if_pos hsol]
    have hsolB : solidAt noise CHUNK_SIZE cp a b c = true := by
      unfold solidAt
      exact decide_eq_true hsol
    have hne : ¬ ((mkBlock noise CHUNK_SIZE cp a b c).block_type = BlockType.Air) := by
      rw [htype]
      simp
    rw [if_neg hne, if_pos hsolB]
    congr 1
    show (mkBlock noise CHUNK_SIZE cp a b c).block_intersections ++
        stepFaces CHUNK_SIZE c b a (genChunkData noise CHUNK_SIZE cp) = _
    rw [mkBlock_intersections, List.nil_append, hfaces]
  · have htype : (mkBlock noise CHUNK_SIZE cp a b c).block_type = BlockType.Air := by
      rw [mkBlock_type, if_neg hsol]
    have hsolB : solidAt noise CHUNK_SIZE cp a b c = false := by
      unfold solidAt
      exact decide_eq_false hsol
    rw [if_pos htype, if_neg (by rw [hsolB]; simp)]
    rw [mkBlock_intersections]

/-- C3 (amended): after classification, the record of the voxel generated at
local `(a, b, c)` contains exactly one face entry per neighbour that lies
inside the chunk and is solid — a neighbour outside `[0, CHUNK_SIZE)` is
treated as absent and `Air` voxels' records stay empty — but under the
direction-to-label mapping `Top = +Y`, `Bottom = -Y`, `Left = -Z`,
`Right = +Z`, `Front = +X`, `Back = -X` (the claim's mapping `Right = +X`,
`Left = -X`, `Front = +Z`, `Back = -Z` has the X and Z axes swapped:
generation is `x`-major while the classification index formula is
`z`-major). -/
theorem claim_C3 (noise : ℚ → ℚ → ℚ → ℚ) (cp : IVec3) (a b c : ℕ)
    (ha : a < CHUNK_SIZE) (hb : b < CHUNK_SIZE) (hc : c < CHUNK_SIZE) :
    ((classifyChunk CHUNK_SIZE
        (genChunkData noise CHUNK_SIZE cp))[a * CHUNK_SIZE * CHUNK_SIZE + b * CHUNK_SIZE + c]?).map
        Block.block_intersections =
      some (if solidAt noise CHUNK_SIZE cp a b c then
          (if b + 1 < CHUNK_SIZE ∧ solidAt noise CHUNK_SIZE cp a (b + 1) c
            then [BlockFace.Top] else []) ++
          (if 0 < b ∧ solidAt noise CHUNK_SIZE cp a (b - 1) c
            then [BlockFace.Bottom] else []) ++
          (if 0 < c ∧ solidAt noise CHUNK_SIZE cp a b (c - 1)
            then [BlockFace.Left] else []) ++
          (if c + 1 < CHUNK_SIZE ∧ solidAt noise CHUNK_SIZE cp a b (c + 1)
            then [BlockFace.Right] else []) ++
          (if a + 1 < CHUNK_SIZE ∧ solidAt noise CHUNK_SIZE cp (a + 1) b c
            then [BlockFace.Front] else []) ++
          (if 0 < a ∧ solidAt noise CHUNK_SIZE cp (a - 1) b c
            then [BlockFace.Back] else [])
        else []) :=
  classified_intersections noise cp a b c ha hb hc

/-- Witness for C3 with the constant-zero sampler at chunk `(0,0,0)`,
local `(0,0,0)`. -/
theorem claim_C3_witness :
    ((classifyChunk CHUNK_SIZE
        (genChunkData zeroNoise CHUNK_SIZE
          ⟨0, 0, 0⟩))[0 * CHUNK_SIZE * CHUNK_SIZE + 0 * CHUNK_SIZE + 0]?).map
        Block.block_intersections =
      some (if solidAt zeroNoise CHUNK_SIZE ⟨0, 0, 0⟩ 0 0 0 then
          (if 0 + 1 < CHUNK_SIZE ∧ solidAt zeroNoise CHUNK_SIZE ⟨0, 0, 0⟩ 0 (0 + 1) 0
            then [BlockFace.Top] else []) ++
          (if 0 < 0 ∧ solidAt zeroNoise CHUNK_SIZE ⟨0, 0, 0⟩ 0 (0 - 1) 0
            then [BlockFace.Bottom] else []) ++
          (if 0 < 0 ∧ solidAt zeroNoise CHUNK_SIZE ⟨0, 0, 0⟩ 0 0 (0 - 1)
            then [BlockFace.Left] else []) ++
          (if 0 + 1 < CHUNK_SIZE ∧ solidAt zeroNoise CHUNK_SIZE ⟨0, 0, 0⟩ 0 0 (0 + 1)
            then [BlockFace.Right] else []) ++
          (if 0 + 1 < CHUNK_SIZE ∧ solidAt zeroNoise CHUNK_SIZE ⟨0, 0, 0⟩ (0 + 1) 0 0
            then [BlockFace.Front] else []) ++
          (if 0 < 0 ∧ solidAt zeroNoise CHUNK_SIZE ⟨0, 0, 0⟩ (0 - 1) 0 0
            then [BlockFace.Back] else [])
        else []) :=
  claim_C3 zeroNoise ⟨0, 0, 0⟩ 0 0 0 (by decide) (by decide) (by decide)

/-- Counterexample to C3 as stated: with a sampler solid exactly at world
`(0,0,0)` and `(1,0,0)`, the voxel at local `(0,0,0)` of chunk `(0,0,0)` has
a solid `+X` neighbour and an `Air` `+Z` neighbour, yet its recorded
intersections are `[Front]` — not `[Right]` as the claim's
`+X = Right` / `+Z = Front` mapping requires. -/
theorem claim_C3_counterexample :
    ((classifyChunk CHUNK_SIZE
        (genChunkData twoSolidNoise CHUNK_SIZE ⟨0, 0, 0⟩))[0]?).map
        Block.block_intersections = some [BlockFace.Front] ∧
    solidAt twoSolidNoise CHUNK_SIZE ⟨0, 0, 0⟩ 1 0 0 = true ∧
    solidAt twoSolidNoise CHUNK_SIZE ⟨0, 0, 0⟩ 0 0 1 = false := by
  have e0 : scaledCoord CHUNK_SIZE 0 0 = 0 := by decide
  have e1 : scaledCoord CHUNK_SIZE 0 1 = 1 := by decide
  have sv000 : sampleValue twoSolidNoise CHUNK_SIZE ⟨0, 0, 0⟩ 0 0 0 = 1 := by
    show twoSolidNoise ((scaledCoord CHUNK_SIZE 0 0 : ℚ) * WORLD_SCALE)
      ((scaledCoord CHUNK_SIZE 0 0 : ℚ) * WORLD_SCALE)
      ((scaledCoord CHUNK_SIZE 0 0 : ℚ) * WORLD_SCALE) = 1
    rw [e0]
    norm_num [twoSolidNoise, WORLD_SCALE]
  have sv100 : sampleValue twoSolidNoise CHUNK_SIZE ⟨0, 0, 0⟩ 1 0 0 = 1 := by
    show twoSolidNoise ((scaledCoord CHUNK_SIZE 0 1 : ℚ) * WORLD_SCALE)
      ((scaledCoord CHUNK_SIZE 0 0 : ℚ) * WORLD_SCALE)
      ((scaledCoord CHUNK_SIZE 0 0 : ℚ) * WORLD_SCALE) = 1
    rw [e0, e1]
    norm_num [twoSolidNoise, WORLD_SCALE]
  have sv010 : sampleValue twoSolidNoise CHUNK_SIZE ⟨0, 0, 0⟩ 0 1 0 = 0 := by
    show twoSolidNoise ((scaledCoord CHUNK_SIZE 0 0 : ℚ) * WORLD_SCALE)
      ((scaledCoord CHUNK_SIZE 0 1 : ℚ) * WORLD_SCALE)
      ((scaledCoord CHUNK_SIZE 0 0 : ℚ) * WORLD_SCALE) = 0
    rw [e0, e1]
    norm_num [twoSolidNoise, WORLD_SCALE]
  have sv001 : sampleValue twoSolidNoise CHUNK_SIZE ⟨0, 0, 0⟩ 0 0 1 = 0 := by
    show twoSolidNoise ((scaledCoord CHUNK_SIZE 0 0 : ℚ) * WORLD_SCALE)
      ((scaledCoord CHUNK_SIZE 0 0 : ℚ) * WORLD_SCALE)
      ((scaledCoord CHUNK_SIZE 0 1 : ℚ) * WORLD_SCALE) = 0
    rw [e0, e1]
    norm_num [twoSolidNoise, WORLD_SCALE]
  have F1 : solidAt twoSolidNoise CHUNK_SIZE ⟨0, 0, 0⟩ 0 0 0 = true := by
    unfold solidAt
    rw [sv000]
    simp only [decide_eq_true_eq]
    norm_num [NOISE_THRESHOLD]
  have F2 : solidAt twoSolidNoise CHUNK_SIZE ⟨0, 0, 0⟩ 1 0 0 = true := by
    unfold solidAt
    rw [sv100]
    simp only [decide_eq_true_eq]
    norm_num [NOISE_THRESHOLD]
  have F3 : solidAt twoSolidNoise CHUNK_SIZE ⟨0, 0, 0⟩ 0 1 0 = false := by
    unfold solidAt
    rw [sv010]
    simp only [decide_eq_false_iff_not]
    norm_num [NOISE_THRESHOLD]
  have F4 : solidAt twoSolidNoise CHUNK_SIZE ⟨0, 0, 0⟩ 0 0 1 = false := by
    unfold solidAt
    rw [sv001]
    simp only [decide_eq_false_iff_not]
    norm_num [NOISE_THRESHOLD]
  refine ⟨?_, F2, F4⟩
  have key := classified_intersections twoSolidNoise ⟨0, 0, 0⟩ 0 0 0
    (by decide) (by decide) (by decide)
  simp only [F1, F2, F3, F4] at key
  norm_num [CHUNK_SIZE] at key ⊢
  exact key

end VoxelGen
